import Mathlib

/-!
# ScriptRunner DSL execution core — a shallow embedding

This file embeds the parts of the ScriptRunner repository (a data-driven
text-adventure runtime written in Python) that its specification makes
verifiable claims about:

* `src/domain/runtime/condition_evaluator.py` — `ConditionEvaluator`
* `src/utils/expression_evaluator.py` — `ExpressionEvaluator`
* `src/domain/runtime/effects_manager.py` — `EffectsManager`
* `src/domain/runtime/state_machine_manager.py` — `StateMachineManager`
* `src/domain/runtime/event_manager.py` — `EventManager` (scheduled events)
* `src/domain/runtime/random_manager.py` — `RandomManager`
* `src/infrastructure/state_manager.py` — `StateManager` (save/load)

Modelling conventions:

* Python's dynamically typed values are the inductive `Value`; Python floats
  are modelled exactly as rationals (`ℚ`), so arithmetic and comparisons are
  exact where CPython rounds.  The printed form of a float (`str(x)`) is
  modelled by a decimal printer that always contains a `.` character, which
  is the only property of CPython's float repr the development relies on,
  beyond its value on the decimally-exact concrete inputs used in witnesses.
* Python dictionaries are insertion-ordered association lists with (by dict
  semantics) unique keys; sets of strings are `Finset String`.
* Fallible Python code is embedded in `Except PyErr`; an uncaught Python
  exception is an `Except.error`.  CPython's recursion limit is modelled by
  explicit fuel: exhausted fuel is `PyErr.recursionError`.
* Side effects (running an effect action, executing a transition action,
  appending audit history) are modelled as emitted events in the returned
  trace; the runtime's action handlers themselves are outside the claims.
-/

namespace ScriptRunner

/-- Python exception classes that the embedded code can raise. -/
inductive PyErr where
  | valueError
  | typeError
  | indexError
  | zeroDivisionError
  | recursionError
  deriving DecidableEq, Repr

/-- A dynamically-typed Python value (the JSON-serializable fragment that the
ScriptRunner state store holds): `None`, booleans, integers, floats (exact,
as `ℚ`), strings, lists, and string-keyed dictionaries. -/
inductive Value where
  | none
  | bool (b : Bool)
  | int (n : ℤ)
  | float (q : ℚ)
  | str (s : String)
  | list (xs : List Value)
  | dict (kvs : List (String × Value))

mutual
/-- Structural decidable equality for `Value` (the derive handler does not
support the nested occurrences of `List`). -/
def decEqValue : (a b : Value) → Decidable (a = b)
  | .none, .none => isTrue rfl
  | .none, .bool _ | .none, .int _ | .none, .float _ | .none, .str _
  | .none, .list _ | .none, .dict _ => isFalse (fun h => Value.noConfusion h)
  | .bool _, .none | .bool _, .int _ | .bool _, .float _ | .bool _, .str _
  | .bool _, .list _ | .bool _, .dict _ => isFalse (fun h => Value.noConfusion h)
  | .int _, .none | .int _, .bool _ | .int _, .float _ | .int _, .str _
  | .int _, .list _ | .int _, .dict _ => isFalse (fun h => Value.noConfusion h)
  | .float _, .none | .float _, .bool _ | .float _, .int _ | .float _, .str _
  | .float _, .list _ | .float _, .dict _ => isFalse (fun h => Value.noConfusion h)
  | .str _, .none | .str _, .bool _ | .str _, .int _ | .str _, .float _
  | .str _, .list _ | .str _, .dict _ => isFalse (fun h => Value.noConfusion h)
  | .list _, .none | .list _, .bool _ | .list _, .int _ | .list _, .float _
  | .list _, .str _ | .list _, .dict _ => isFalse (fun h => Value.noConfusion h)
  | .dict _, .none | .dict _, .bool _ | .dict _, .int _ | .dict _, .float _
  | .dict _, .str _ | .dict _, .list _ => isFalse (fun h => Value.noConfusion h)
  | .bool x, .bool y =>
    if h : x = y then isTrue (congrArg Value.bool h)
    else isFalse (fun he => h (Value.bool.inj he))
  | .int x, .int y =>
    if h : x = y then isTrue (congrArg Value.int h)
    else isFalse (fun he => h (Value.int.inj he))
  | .float x, .float y =>
    if h : x = y then isTrue (congrArg Value.float h)
    else isFalse (fun he => h (Value.float.inj he))
  | .str x, .str y =>
    if h : x = y then isTrue (congrArg Value.str h)
    else isFalse (fun he => h (Value.str.inj he))
  | .list xs, .list ys =>
    match decEqValueList xs ys with
    | isTrue h => isTrue (congrArg Value.list h)
    | isFalse h => isFalse (fun he => h (Value.list.inj he))
  | .dict xs, .dict ys =>
    match decEqValueKVs xs ys with
    | isTrue h => isTrue (congrArg Value.dict h)
    | isFalse h => isFalse (fun he => h (Value.dict.inj he))

/-- Decidable equality for lists of values. -/
def decEqValueList : (a b : List Value) → Decidable (a = b)
  | [], [] => isTrue rfl
  | [], _ :: _ => isFalse (fun h => List.noConfusion h)
  | _ :: _, [] => isFalse (fun h => List.noConfusion h)
  | x :: xs, y :: ys =>
    match decEqValue x y with
    | isFalse h => isFalse (fun he => h (List.cons.inj he).1)
    | isTrue h1 =>
      match decEqValueList xs ys with
      | isTrue h2 => isTrue (h1 ▸ h2 ▸ rfl)
      | isFalse h2 => isFalse (fun he => h2 (List.cons.inj he).2)

/-- Decidable equality for string-keyed association lists of values. -/
def decEqValueKVs : (a b : List (String × Value)) → Decidable (a = b)
  | [], [] => isTrue rfl
  | [], _ :: _ => isFalse (fun h => List.noConfusion h)
  | _ :: _, [] => isFalse (fun h => List.noConfusion h)
  | (k1, v1) :: xs, (k2, v2) :: ys =>
    if hk : k1 = k2 then
      match decEqValue v1 v2 with
      | isFalse h => isFalse (fun he => h (congrArg Prod.snd (List.cons.inj he).1))
      | isTrue hv =>
        match decEqValueKVs xs ys with
        | isTrue ht => isTrue (hk ▸ hv ▸ ht ▸ rfl)
        | isFalse ht => isFalse (fun he => ht (List.cons.inj he).2)
    else isFalse (fun he => hk (congrArg Prod.fst (List.cons.inj he).1))
end

instance : DecidableEq Value := decEqValue

deriving instance DecidableEq for Except

/-! ## Character-list utilities (Python `str` operations) -/

/-- Python `str.strip()` whitespace set (the ASCII part, which is all the
repository's scripts use). -/
def isPySpace (c : Char) : Bool :=
  c = ' ' || c = '\t' || c = '\n' || c = '\r'

/-- Drop leading characters satisfying `p`. -/
def dropLeading (p : Char → Bool) : List Char → List Char
  | [] => []
  | c :: cs => if p c then dropLeading p cs else c :: cs

/-- Drop trailing characters satisfying `p`. -/
def dropTrailing (p : Char → Bool) (l : List Char) : List Char :=
  (dropLeading p l.reverse).reverse

/-- Python `s.strip()` (no argument). -/
def pyStrip (l : List Char) : List Char :=
  dropTrailing isPySpace (dropLeading isPySpace l)

/-- Python `s.strip(chars)`: strip all leading and trailing characters that
are members of `chars`. -/
def pyStripChars (chars : List Char) (l : List Char) : List Char :=
  dropTrailing (fun c => chars.contains c) (dropLeading (fun c => chars.contains c) l)

/-- Python `s.rstrip(chars)`. -/
def pyRStripChars (chars : List Char) (l : List Char) : List Char :=
  dropTrailing (fun c => chars.contains c) l

/-- Split at the first occurrence of `sep` (Python `s.split(sep, 1)` when it
finds a separator): `some (before, after)`, or `none` when `sep` does not
occur.  `(splitOnce sep s).isSome` is Python's `sep in s` for nonempty
`sep`. -/
def splitOnce (sep : List Char) : List Char → Option (List Char × List Char)
  | [] => if sep.isEmpty then some ([], []) else Option.none
  | c :: cs =>
    if sep.isPrefixOf (c :: cs) then some ([], (c :: cs).drop sep.length)
    else match splitOnce sep cs with
      | some (a, b) => some (c :: a, b)
      | Option.none => Option.none

/-- Python `sep in s` (substring containment) for nonempty `sep`. -/
def containsSub (sep s : List Char) : Bool :=
  (splitOnce sep s).isSome

/-! ## Printing values (Python `str` / `repr`) -/

/-- The decimal digit character for `d < 10`. -/
def digitChar (d : ℕ) : Char := Char.ofNat (48 + d)

/-- Decimal digits of a natural number, most significant first; `fuel`-driven
so that it reduces definitionally (`natChars (n+1) n` is always enough fuel). -/
def natChars : ℕ → ℕ → List Char
  | 0, _ => []
  | fuel + 1, n => if n < 10 then [digitChar n] else natChars fuel (n / 10) ++ [digitChar (n % 10)]

/-- Python `str` of a nonnegative integer. -/
def natStr (n : ℕ) : List Char := natChars (n + 1) n

/-- Read a digit string back into a number (used to invert `natChars`). -/
def digitsToNat (l : List Char) : ℕ :=
  l.foldl (fun a c => 10 * a + (c.toNat - 48)) 0

/-- Python `str` of an integer. -/
def intStr (n : ℤ) : List Char :=
  if n < 0 then '-' :: natStr n.natAbs else natStr n.natAbs

/-- Up to `fuel` decimal digits of the fractional part `q` (`0 ≤ q < 1`),
dropping the trailing zeros. -/
def fracChars : ℕ → ℚ → List Char
  | 0, _ => []
  | fuel + 1, q =>
    if q = 0 then []
    else
      let d := (q * 10).floor.toNat
      digitChar d :: fracChars fuel (q * 10 - (q * 10).floor)

/-- Python `str` of a float, modelled on the exact rational value: sign,
integer part, `'.'`, then the fractional digits (`"0"` when the value is
integral).  This agrees with CPython on every decimally-exact float and,
like CPython's float repr, always contains a `'.'`. -/
def floatStr (q : ℚ) : List Char :=
  let a := |q|
  let frac := fracChars 30 (a - a.floor)
  (if q < 0 then ['-'] else []) ++ natStr a.floor.toNat ++ '.' :: (if frac.isEmpty then ['0'] else frac)

mutual
/-- Python `str(v)`. -/
def pyStr : Value → List Char
  | .none => "None".data
  | .bool true => "True".data
  | .bool false => "False".data
  | .int n => intStr n
  | .float q => floatStr q
  | .str s => s.data
  | .list xs => '[' :: pyStrList xs ++ [']']
  | .dict kvs => '\x7b' :: pyStrDict kvs ++ ['\x7d']

/-- Python `repr(v)` (as used for the elements of a printed container). -/
def pyRepr : Value → List Char
  | .str s => '\'' :: s.data ++ ['\'']
  | v => pyStr v

/-- Comma-separated reprs of the elements of a printed list. -/
def pyStrList : List Value → List Char
  | [] => []
  | [v] => pyRepr v
  | v :: vs => pyRepr v ++ ',' :: ' ' :: pyStrList vs

/-- Comma-separated `key: value` reprs of a printed dict. -/
def pyStrDict : List (String × Value) → List Char
  | [] => []
  | [(k, v)] => pyRepr (.str k) ++ ':' :: ' ' :: pyRepr v
  | (k, v) :: kvs => pyRepr (.str k) ++ ':' :: ' ' :: pyRepr v ++ ',' :: ' ' :: pyStrDict kvs
end

/-! ## Numeric coercion (Python `float(...)`) -/

/-- The numeric value of a decimal digit character, if it is one. -/
def digitVal? (c : Char) : Option ℕ :=
  if '0' ≤ c ∧ c ≤ '9' then some (c.toNat - 48) else Option.none

/-- Parse a nonempty all-digit string. -/
def digitsVal? : List Char → Option ℕ
  | [] => Option.none
  | l => l.foldlM (fun acc c => (digitVal? c).map (fun d => 10 * acc + d)) 0

/-- Parse the mantissa of a float literal: digits with at most one `'.'`,
at least one digit in total. -/
def parseMantissa (l : List Char) : Option ℚ :=
  match splitOnce ['.'] l with
  | Option.none => (digitsVal? l).map (fun n => (n : ℚ))
  | some (ip, fp) =>
    if ip.isEmpty ∧ fp.isEmpty then Option.none
    else do
      let i ← if ip.isEmpty then pure 0 else digitsVal? ip
      let f ← if fp.isEmpty then pure 0 else digitsVal? fp
      if fp.contains '.' then Option.none
      else pure ((i : ℚ) + (f : ℚ) / (10 : ℚ) ^ fp.length)

/-- Parse an optionally signed decimal exponent. -/
def parseExponent (l : List Char) : Option ℤ :=
  match l with
  | '+' :: ds => (digitsVal? ds).map (fun n => (n : ℤ))
  | '-' :: ds => (digitsVal? ds).map (fun n => -(n : ℤ))
  | ds => (digitsVal? ds).map (fun n => (n : ℤ))

/-- Python `float(s)` on a string: strip whitespace, optional sign, decimal
mantissa, optional `e`/`E` exponent.  (`inf`/`nan` and digit underscores are
not modelled; no ScriptRunner script uses them.) -/
def pyFloatOfChars (l : List Char) : Option ℚ := do
  let t := pyStrip l
  let sb : ℚ × List Char :=
    match t with
    | '+' :: rest => (1, rest)
    | '-' :: rest => (-1, rest)
    | rest => (1, rest)
  let me : List Char × ℤ ←
    match splitOnce ['e'] sb.2 with
    | some (m, e) => (parseExponent e).map (fun v => (m, v))
    | Option.none =>
      match splitOnce ['E'] sb.2 with
      | some (m, e) => (parseExponent e).map (fun v => (m, v))
      | Option.none => some (sb.2, 0)
  let m ← parseMantissa me.1
  pure (sb.1 * m * (10 : ℚ) ^ me.2)

/-- Python `float(v)` on a value: numbers and bools convert, strings are
parsed (`ValueError` on failure), anything else is a `TypeError`. -/
def pyFloat : Value → Except PyErr ℚ
  | .int n => .ok n
  | .float q => .ok q
  | .bool b => .ok (if b then 1 else 0)
  | .str s =>
    match pyFloatOfChars s.data with
    | some q => .ok q
    | Option.none => .error .valueError
  | _ => .error .typeError

/-- Python truthiness: `bool(v)`. -/
def pyTruthy : Value → Bool
  | .none => false
  | .bool b => b
  | .int n => n ≠ 0
  | .float q => q ≠ 0
  | .str s => s ≠ ""
  | .list xs => ¬xs.isEmpty
  | .dict kvs => ¬kvs.isEmpty

/-- The numeric value of `v` when Python treats it as a number for `==`
(bools count: `True == 1`). -/
def pyNum? : Value → Option ℚ
  | .bool b => some (if b then 1 else 0)
  | .int n => some n
  | .float q => some q
  | _ => Option.none

mutual
/-- Python `==` on values: cross-type numeric equality, otherwise structural. -/
def pyEq : Value → Value → Bool
  | a, b =>
    match pyNum? a, pyNum? b with
    | some x, some y => x = y
    | _, _ =>
      match a, b with
      | .none, .none => true
      | .str s, .str t => s = t
      | .list xs, .list ys => pyEqList xs ys
      | .dict xs, .dict ys => xs.length = ys.length && pyEqDict xs ys
      | _, _ => false

/-- Elementwise Python `==` on lists. -/
def pyEqList : List Value → List Value → Bool
  | [], [] => true
  | x :: xs, y :: ys => pyEq x y && pyEqList xs ys
  | _, _ => false

/-- Python dict `==`: every key of the left dict maps to an equal value on
the right (with equal sizes and unique keys this is dict equality). -/
def pyEqDict : List (String × Value) → List (String × Value) → Bool
  | [], _ => true
  | (k, v) :: xs, ys =>
    (match ys.lookup k with
     | some w => pyEq v w
     | Option.none => false) && pyEqDict xs ys
end

/-- Python `x in v` (membership test): lists test elementwise equality,
strings test substring containment (`TypeError` unless `x` is a string),
dicts test key membership; numbers are not containers (`TypeError`). -/
def pyIn (x : Value) (v : Value) : Except PyErr Bool :=
  match v with
  | .list xs => .ok (xs.any (pyEq x))
  | .str s =>
    match x with
    | .str t => .ok (containsSub t.data s.data || t = "")
    | _ => .error .typeError
  | .dict kvs => .ok (kvs.any (fun kv => pyEq x (.str kv.1)))
  | _ => .error .typeError

/-! ## `ConditionEvaluator` (src/domain/runtime/condition_evaluator.py)

The evaluator reads the state manager's variable map, flag set and current
scene, and — for dotted `object.state` conditions — the parsed script's
scene and object definitions (via its `parser`).  All of those are bundled
into `EvalEnv`.  Recursion (the `and`/`or` splits and the
`spawn_condition` re-entry of `_check_object_state`) is fuel-indexed:
exhausted fuel is CPython's `RecursionError`. -/

/-- An entry of a scene's `objects` list (`obj.get('ref')`,
`obj.get('spawn_condition')`; scripts type both as strings when present). -/
structure SceneObject where
  ref : Option String := Option.none
  spawnCondition : Option String := Option.none

/-- A member of an object definition's `states` list (`state.get('name')`,
`state.get('value', False)`). -/
structure ObjectState where
  name : Option String := Option.none
  value : Value := .bool false

/-- An object definition (`parser.get_object`); only its `states` list is
read by the evaluator. -/
structure ObjectDef where
  states : List ObjectState := []

/-- A scene record (`parser.get_scene`); only its `objects` list is read by
the evaluator.  A scene dict that exists but is empty is not distinguished
from one with an empty `objects` list. -/
structure SceneData where
  objects : List SceneObject := []

/-- Everything `ConditionEvaluator.evaluate_condition` reads: the state
manager's `variables`, `flags` and `current_scene`, whether a parser was
supplied, and the parser's scene and object tables. -/
structure EvalEnv where
  vars : List (String × Value) := []
  flags : Finset String := ∅
  currentScene : String := ""
  hasParser : Bool := true
  scenes : List (String × SceneData) := []
  objects : List (String × ObjectDef) := []

/-- `ConditionEvaluator._get_value`: a variable's value when the (stripped)
expression names one, else the expression string itself. -/
def getValue (env : EvalEnv) (l : List Char) : Value :=
  let e := String.mk (pyStrip l)
  match env.vars.lookup e with
  | some v => v
  | Option.none => .str e

/-- The quote characters stripped by `.strip('"\'')`. -/
def quoteChars : List Char := ['"', '\'']

mutual
/-- `ConditionEvaluator.evaluate_condition` on a character list, following
the source's branch chain: empty → `True`; `' and '`/`' or '` split once and
recurse with Python's short-circuiting; `'=='` compares `str(left_value)`
with the (quote-stripped) right side; `has_flag`/`has_item` membership;
`>=`, `<=`, `>`, `<` compare `float(...)` coercions, whose `ValueError`/
`TypeError` is NOT caught here; `!flag`; `exists:`; dotted object-state
lookup; and the fail-open fallback `True`. -/
def evalCondC : ℕ → EvalEnv → List Char → Except PyErr Bool
  | 0, _, _ => .error .recursionError
  | fuel + 1, env, cond =>
    if cond.isEmpty then .ok true
    else match splitOnce " and ".data cond with
    | some (a, b) => do
      let l ← evalCondC fuel env (pyStrip a)
      if l then evalCondC fuel env (pyStrip b) else pure false
    | Option.none => match splitOnce " or ".data cond with
    | some (a, b) => do
      let l ← evalCondC fuel env (pyStrip a)
      if l then pure true else evalCondC fuel env (pyStrip b)
    | Option.none => match splitOnce "==".data cond with
    | some (left, right) =>
      let r := pyStrip right
      let r := if r.head? = some '"' ∧ r.getLast? = some '"' then (r.drop 1).dropLast else r
      .ok (pyStr (getValue env (pyStrip left)) == r)
    | Option.none =>
      if containsSub "has_flag".data cond then
        match splitOnce ['('] cond with
        | some (_, after) =>
          let flag := pyRStripChars [')'] after
          .ok (decide (String.mk (pyStripChars quoteChars flag) ∈ env.flags))
        | Option.none => .error .indexError
      else if containsSub "has_item".data cond then
        match splitOnce ['('] cond with
        | some (_, after) =>
          let item := pyRStripChars [')'] after
          let inventory := match env.vars.lookup "inventory" with
            | some v => v
            | Option.none => .list []
          pyIn (.str (String.mk (pyStripChars quoteChars item))) inventory
        | Option.none => .error .indexError
      else match splitOnce ">=".data cond with
      | some (left, right) => do
        let lv ← pyFloat (getValue env (pyStrip left))
        let rv ← pyFloat (getValue env (pyStrip right))
        pure (lv ≥ rv)
      | Option.none => match splitOnce "<=".data cond with
      | some (left, right) => do
        let lv ← pyFloat (getValue env (pyStrip left))
        let rv ← pyFloat (getValue env (pyStrip right))
        pure (lv ≤ rv)
      | Option.none => match splitOnce ['>'] cond with
      | some (left, right) => do
        let lv ← pyFloat (getValue env (pyStrip left))
        let rv ← pyFloat (getValue env (pyStrip right))
        pure (lv > rv)
      | Option.none => match splitOnce ['<'] cond with
      | some (left, right) => do
        let lv ← pyFloat (getValue env (pyStrip left))
        let rv ← pyFloat (getValue env (pyStrip right))
        pure (lv < rv)
      | Option.none =>
        if cond.head? = some '!' then
          .ok (!decide (String.mk (pyStrip (cond.drop 1)) ∈ env.flags))
        else
          if "exists:".data.isPrefixOf cond then
            let varName := String.mk (pyStrip (cond.drop 7))
            .ok ((env.vars.lookup varName).isSome)
          else match splitOnce ['.'] cond with
          | some (objPart, statePart) =>
            checkObjectState fuel env (String.mk (pyStrip objPart)) (String.mk (pyStrip statePart))
          | Option.none => .ok true

/-- `ConditionEvaluator._check_object_state`: resolve the dotted
`object.state` form against the current scene's object list. -/
def checkObjectState : ℕ → EvalEnv → String → String → Except PyErr Bool
  | 0, _, _, _ => .error .recursionError
  | fuel + 1, env, objName, stateName =>
    if ¬env.hasParser then .ok false
    else if env.currentScene = "" then .ok false
    else match env.scenes.lookup env.currentScene with
    | Option.none => .ok false
    | some sd => objStateLoop fuel env sd.objects objName stateName

/-- The `for obj in objects` loop of `_check_object_state`: first object
whose `ref` matches and whose `spawn_condition` (when truthy) evaluates true
decides; `'present'` means existence; otherwise the object definition's
matching state's truthiness; non-deciding objects fall through to the next. -/
def objStateLoop : ℕ → EvalEnv → List SceneObject → String → String → Except PyErr Bool
  | 0, _, _, _, _ => .error .recursionError
  | _ + 1, _, [], _, _ => .ok false
  | fuel + 1, env, obj :: rest, objName, stateName =>
    if obj.ref = some objName then do
      let spawned ←
        match obj.spawnCondition with
        | some sc => if sc = "" then pure true else evalCondC fuel env sc.data
        | Option.none => pure true
      if ¬spawned then objStateLoop fuel env rest objName stateName
      else if stateName = "present" then pure true
      else match env.objects.lookup objName with
        | some od =>
          match od.states.find? (fun st => st.name = some stateName) with
          | some st => pure (pyTruthy st.value)
          | Option.none => objStateLoop fuel env rest objName stateName
        | Option.none => objStateLoop fuel env rest objName stateName
    else objStateLoop fuel env rest objName stateName
end

/-- `ConditionEvaluator.evaluate_condition`: `None` and the empty string are
unconditionally true; otherwise the branch chain of `evalCondC`. -/
def evaluateCondition (fuel : ℕ) (env : EvalEnv) (condition : Option String) : Except PyErr Bool :=
  match condition with
  | Option.none => .ok true
  | some s => evalCondC fuel env s.data

/-! ## `ExpressionEvaluator` (src/utils/expression_evaluator.py) -/

/-- `ExpressionEvaluator.evaluate_expression`: runs CPython `eval` over the
expression in a restricted sandbox and resolves every exception the sandbox
raises to `0`.  The sandbox itself (CPython's expression interpreter over
the safe context) is outside this embedding; its outcome — a produced value
or a raised exception — is the `sandboxOutcome` argument, and this function
is the `try`/`except` wrapper around it. -/
def evaluateExpression (sandboxOutcome : Except PyErr Value) : Value :=
  match sandboxOutcome with
  | .ok v => v
  | .error _ => .int 0

/-! ## Shared helpers: Python dict assignment, `int(...)` truncation -/

/-- Python dict assignment `d[k] = v`: replace in place when the key exists,
append otherwise. -/
def setKey (kvs : List (String × Value)) (k : String) (v : Value) : List (String × Value) :=
  if (kvs.lookup k).isSome then kvs.map (fun kv => if kv.1 = k then (k, v) else kv)
  else kvs ++ [(k, v)]

/-- Python `int(x)` on a float: truncation toward zero. -/
def pyIntTrunc (q : ℚ) : ℤ := if 0 ≤ q then q.floor else q.ceil

/-- Python `float(s)` on a character list, as an `Except` (`ValueError` on
parse failure). -/
def pyFloatChars (l : List Char) : Except PyErr ℚ :=
  match pyFloatOfChars l with
  | some q => .ok q
  | Option.none => .error .valueError

/-! ## `EffectsManager` (src/domain/runtime/effects_manager.py)

The manager's `active_effects` dict maps effect names to active-effect
instance dicts.  The fields below are the keys the manager reads; running an
action (`_execute_single_action` is fully `try`/`except`-wrapped and never
raises) is modelled as an emitted `EffectEvent`. -/

/-- An active-effect instance (`self.active_effects[name]`): the keys read
by `update_effects`, `remove_effect` and `get_effect_modifier`.
`apply_effect` guarantees `duration` is an `int` and `start_time`/`target`
are present on every instance. -/
structure EffectData where
  duration : ℤ := 0
  startTime : ℚ := 0
  target : String := "player"
  lastTick : ℤ := 0
  tick : Option String := Option.none
  tickRate : ℚ := 1
  applyActions : Value := .list []
  removeActions : Value := .list []
  modifiers : List (String × Value) := []

/-- A run of one effect-action hook, as recorded in the trace. -/
inductive EffectEvent where
  | act (effect : String) (hook : String) (action : Value)

/-- `_execute_effect_actions`: a list runs each member, a bare string runs
once, anything else runs nothing. -/
def effectActionsList : Value → List Value
  | .list xs => xs
  | .str s => [.str s]
  | _ => []

/-- The trace of `_execute_effect_actions(effect_data, hook)`. -/
def executeEffectActions (effect : String) (hook : String) (v : Value) : List EffectEvent :=
  (effectActionsList v).map (EffectEvent.act effect hook)

/-- `EffectsManager.remove_effect`: when active, run the remove actions,
delete the entry and return `True`; otherwise return `False`. -/
def removeEffect (name : String) (st : List (String × EffectData)) :
    Bool × List (String × EffectData) × List EffectEvent :=
  match st.lookup name with
  | some data =>
    (true, st.filter (fun kv => kv.1 ≠ name), executeEffectActions name "remove" data.removeActions)
  | Option.none => (false, st, [])

/-- The tick phase of one `update_effects` iteration: fire the tick action
when the elapsed tick count crossed `last_tick`.  A truthy tick action with
`tick_rate = 0` raises `ZeroDivisionError`, which `update_effects` does not
catch. -/
def effectTickPhase (now : ℚ) (name : String) (data : EffectData) :
    Except PyErr ((String × EffectData) × Bool × List EffectEvent) :=
  match data.tick with
  | some t =>
    if t = "" then .ok ((name, data), false, [])
    else if data.tickRate = 0 then .error .zeroDivisionError
    else
      let elapsed := pyIntTrunc ((now - data.startTime) / data.tickRate)
      if elapsed > data.lastTick then
        .ok ((name, { data with lastTick := elapsed }), false, [.act name "tick" (.str t)])
      else .ok ((name, data), false, [])
  | Option.none => .ok ((name, data), false, [])

/-- One iteration of the `update_effects` loop on a single entry: decrement
a positive duration, mark expiry when it reaches `0` (skipping the tick
phase via `continue`), else run the tick phase. -/
def updateEffectEntry (now : ℚ) (kv : String × EffectData) :
    Except PyErr ((String × EffectData) × Bool × List EffectEvent) :=
  let name := kv.1
  let data := kv.2
  if data.duration > 0 then
    if data.duration - 1 ≤ 0 then .ok ((name, { data with duration := data.duration - 1 }), true, [])
    else effectTickPhase now name { data with duration := data.duration - 1 }
  else effectTickPhase now name data

/-- The first phase of `update_effects`: walk all entries, mutating
durations and tick indices and collecting the expired names and tick
events.  An exception aborts the whole update (the partial mutations CPython
would leave behind are not modelled; every claim about `update_effects`
concerns exception-free updates). -/
def updateEffectsPhase1 (now : ℚ) :
    List (String × EffectData) →
    Except PyErr (List (String × EffectData) × List String × List EffectEvent)
  | [] => .ok ([], [], [])
  | kv :: rest => do
    let (kv', expired, evs) ← updateEffectEntry now kv
    let (rest', names, evs') ← updateEffectsPhase1 now rest
    pure (kv' :: rest', (if expired then [kv'.1] else []) ++ names, evs ++ evs')

/-- The second phase of `update_effects`: remove each expired effect in
collection order, running its remove actions. -/
def removeExpired : List String → List (String × EffectData) →
    List (String × EffectData) × List EffectEvent
  | [], st => (st, [])
  | name :: rest, st =>
    let r := removeEffect name st
    let r' := removeExpired rest r.2.1
    (r'.1, r.2.2 ++ r'.2)

/-- Whether an effect's tick configuration cannot raise inside
`update_effects`: a truthy tick action demands a nonzero `tick_rate`. -/
def tickOk (e : EffectData) : Bool :=
  match e.tick with
  | some t => t == "" || !decide (e.tickRate = 0)
  | Option.none => true

/-- Recognize the remove-hook events of a named effect in a trace. -/
def isRemoveEventFor (name : String) : EffectEvent → Bool
  | .act n hook _ => n == name && hook == "remove"

/-- `EffectsManager.update_effects`. -/
def updateEffects (now : ℚ) (st : List (String × EffectData)) :
    Except PyErr (List (String × EffectData) × List EffectEvent) := do
  let (st', expired, evs) ← updateEffectsPhase1 now st
  let r := removeExpired expired st'
  pure (r.1, evs ++ r.2)

/-- `k` successive calls of `update_effects`, starting at call index `i`
(the call at index `j` runs at wall time `nows j`), with the traces
concatenated; an exception aborts the iteration. -/
def iterUpdateEffectsFrom (nows : ℕ → ℚ) : ℕ → ℕ → List (String × EffectData) →
    Except PyErr (List (String × EffectData) × List EffectEvent)
  | _, 0, st => .ok (st, [])
  | i, k + 1, st => do
    let (st1, tr1) ← updateEffects (nows i) st
    let (st2, tr2) ← iterUpdateEffectsFrom nows (i + 1) k st1
    pure (st2, tr1 ++ tr2)

/-- `k` successive calls of `update_effects`. -/
def iterUpdateEffects (nows : ℕ → ℚ) (k : ℕ) (st : List (String × EffectData)) :
    Except PyErr (List (String × EffectData) × List EffectEvent) :=
  iterUpdateEffectsFrom nows 0 k st

/-- `EffectsManager.get_active_effects`: all effects, or those whose
`target` equals the given one. -/
def getActiveEffects (target : Option String) (st : List (String × EffectData)) :
    List (String × EffectData) :=
  match target with
  | Option.none => st
  | some t => st.filter (fun kv => kv.2.target = t)

/-- The per-modifier step of `get_effect_modifier`: `"*N"` multiplies the
running total unless it is exactly `0.0`, in which case it REPLACES it;
`"+N"`/`"-N"` add and subtract; bare numbers (including bools, which are
`int` instances in Python) add; other values and unprefixed strings are
ignored. -/
def modifierStep (total : ℚ) (mv : Value) : Except PyErr ℚ :=
  match mv with
  | .str s =>
    if "*".data.isPrefixOf s.data then do
      let m ← pyFloatChars (s.data.drop 1)
      pure (if total = 0 then m else total * m)
    else if "+".data.isPrefixOf s.data then do
      let m ← pyFloatChars (s.data.drop 1)
      pure (total + m)
    else if "-".data.isPrefixOf s.data then do
      let m ← pyFloatChars (s.data.drop 1)
      pure (total - m)
    else pure total
  | .int n => pure (total + n)
  | .float q => pure (total + q)
  | .bool b => pure (total + if b then 1 else 0)
  | _ => pure total

/-- `EffectsManager.get_effect_modifier`: fold `modifierStep` over the
stat's modifiers of the (target-filtered) active effects, seeded at `0.0`. -/
def getEffectModifier (st : List (String × EffectData)) (statName : String)
    (target : Option String) : Except PyErr ℚ :=
  (getActiveEffects target st).foldlM
    (fun total kv =>
      match kv.2.modifiers.lookup statName with
      | some mv => modifierStep total mv
      | Option.none => pure total)
    0

/-- Modelled from the claim's words, NOT from the source (for comparison
with `getEffectModifier`): additive modifiers (`+N`, `-N`, bare numeric)
are summed, and a multiplicative modifier (`*N`) multiplies into the
running total. -/
def claimedModifierStep (total : ℚ) (mv : Value) : Except PyErr ℚ :=
  match mv with
  | .str s =>
    if "*".data.isPrefixOf s.data then do
      let m ← pyFloatChars (s.data.drop 1)
      pure (total * m)
    else if "+".data.isPrefixOf s.data then do
      let m ← pyFloatChars (s.data.drop 1)
      pure (total + m)
    else if "-".data.isPrefixOf s.data then do
      let m ← pyFloatChars (s.data.drop 1)
      pure (total - m)
    else pure total
  | .int n => pure (total + n)
  | .float q => pure (total + q)
  | .bool b => pure (total + if b then 1 else 0)
  | _ => pure total

/-- The claim's aggregation, over the same filtered effects. -/
def claimedEffectModifier (st : List (String × EffectData)) (statName : String)
    (target : Option String) : Except PyErr ℚ :=
  (getActiveEffects target st).foldlM
    (fun total kv =>
      match kv.2.modifiers.lookup statName with
      | some mv => claimedModifierStep total mv
      | Option.none => pure total)
    0

/-! ## `StateMachineManager` (src/domain/runtime/state_machine_manager.py) -/

/-- Python `s.split(sep)` (all occurrences), fuel-driven on the string
length, which always suffices because each found separator consumes at
least one character. -/
def splitAllAux (sep : List Char) : ℕ → List Char → List (List Char)
  | 0, s => [s]
  | fuel + 1, s =>
    match splitOnce sep s with
    | some (a, b) => a :: splitAllAux sep fuel b
    | Option.none => [s]

/-- Python `s.split(sep)` for nonempty `sep`. -/
def splitAll (sep s : List Char) : List (List Char) :=
  splitAllAux sep (s.length + 1) s

/-- A member of a state's `transitions` list: the keys read by the manager
(scripts type `condition`, `to` and `event` as strings when present). -/
structure SMTransition where
  condition : Option String := Option.none
  toState : Option String := Option.none
  event : Option String := Option.none
  actions : List String := []

/-- A state definition: `transitions` and the continuous `actions`. -/
structure SMStateDef where
  transitions : List SMTransition := []
  actions : List String := []

/-- A state machine definition: `initial_state` and the `states` mapping. -/
structure StateMachine where
  initialState : Option String := Option.none
  states : List (String × SMStateDef) := []

/-- An externally visible step of a state-machine update: an executed
action (`ActionExecutor.execute_action`) or the transition event of
`_trigger_transition_event`. -/
inductive SMEvent where
  | act (a : String)
  | transitioned (sm : String) (src : Value) (dst : String)

/-- One clause pass of the compound-time-condition loop in
`_check_transition_condition`: an unparsable threshold raises `ValueError`,
which the surrounding `try` turns into `False` for the whole check; a
non-numeric `game_time` raises `TypeError`, which is NOT caught; clauses
starting with none of the four operators are skipped. -/
def checkTimeClauses (gameTime : Value) : List (List Char) → Except PyErr Bool
  | [] => .ok true
  | cl :: rest =>
    let cl := pyStrip cl
    let step : Option (ℚ → ℚ → Bool) × List Char :=
      if "time > ".data.isPrefixOf cl then (some (fun g th => g > th), cl.drop 7)
      else if "time >= ".data.isPrefixOf cl then (some (fun g th => g ≥ th), cl.drop 8)
      else if "time < ".data.isPrefixOf cl then (some (fun g th => g < th), cl.drop 7)
      else if "time <= ".data.isPrefixOf cl then (some (fun g th => g ≤ th), cl.drop 8)
      else (Option.none, cl)
    match step.1 with
    | Option.none => checkTimeClauses gameTime rest
    | some cmp =>
      match pyFloatOfChars step.2 with
      | Option.none => .ok false
      | some th =>
        match pyNum? gameTime with
        | Option.none => .error .typeError
        | some g => if cmp g th then checkTimeClauses gameTime rest else .ok false

/-- `StateMachineManager._check_transition_condition`: a missing or empty
condition never transitions; a condition starting with a time operator is a
`&&`-conjunction of time clauses against the `game_time` variable (default
`0`); anything else delegates to `ConditionEvaluator.evaluate_condition`,
whose exceptions propagate. -/
def checkTransitionCondition (fuel : ℕ) (env : EvalEnv) (t : SMTransition) :
    Except PyErr Bool :=
  match t.condition with
  | Option.none => .ok false
  | some c =>
    if c = "" then .ok false
    else if "time > ".data.isPrefixOf c.data ∨ "time >= ".data.isPrefixOf c.data ∨
        "time < ".data.isPrefixOf c.data ∨ "time <= ".data.isPrefixOf c.data then
      let gameTime := match env.vars.lookup "game_time" with
        | some v => v
        | Option.none => .int 0
      checkTimeClauses gameTime (splitAll "&&".data c.data)
    else evalCondC fuel env c.data

/-- A target is applied only when `new_state and new_state != current_state`
holds: present, truthy, and different (by Python `!=`) from the current
state value. -/
def validTarget (toState : Option String) (current : Value) : Bool :=
  match toState with
  | some s => s ≠ "" && !pyEq (.str s) current
  | Option.none => false

/-- The trace of `_execute_state_transition`: set the state variable, run
the transition's actions, then emit the transition event. -/
def executeStateTransition (env : EvalEnv) (smName : String) (src : Value)
    (t : SMTransition) (dst : String) : EvalEnv × List SMEvent :=
  ({ env with vars := setKey env.vars (smName ++ "_state") (.str dst) },
   t.actions.map SMEvent.act ++ [.transitioned smName src dst])

/-- The transition loop of `_update_state_machine`: first transition whose
condition holds AND whose target is valid fires and breaks; a satisfied
transition with an invalid target falls through to the next. -/
def smTransLoop (fuel : ℕ) (env : EvalEnv) (smName : String) (current : Value) :
    List SMTransition → Except PyErr (EvalEnv × List SMEvent)
  | [] => .ok (env, [])
  | t :: rest => do
    let c ← checkTransitionCondition fuel env t
    if c then
      match t.toState with
      | some dst =>
        if dst ≠ "" && !pyEq (.str dst) current then
          pure (executeStateTransition env smName current t dst)
        else smTransLoop fuel env smName current rest
      | Option.none => smTransLoop fuel env smName current rest
    else smTransLoop fuel env smName current rest

/-- The state definition the update reads: `states.get(current_state, {})`
(a non-string current-state value finds nothing). -/
def currentStateDef (sm : StateMachine) (current : Value) : SMStateDef :=
  match current with
  | .str s =>
    match sm.states.lookup s with
    | some sd => sd
    | Option.none => {}
  | _ => {}

/-- `StateMachineManager._update_state_machine`: read the current-state
variable (a falsy one aborts), run the transition loop, then run the
pre-transition state's continuous actions. -/
def updateOneStateMachine (fuel : ℕ) (env : EvalEnv) (smName : String)
    (sm : StateMachine) : Except PyErr (EvalEnv × List SMEvent) :=
  match env.vars.lookup (smName ++ "_state") with
  | Option.none => .ok (env, [])
  | some current =>
    if ¬pyTruthy current then .ok (env, [])
    else do
      let sd := currentStateDef sm current
      let r ← smTransLoop fuel env smName current sd.transitions
      pure (r.1, r.2 ++ sd.actions.map SMEvent.act)

/-- `StateMachineManager.update_state_machines`: update every machine in
order, swallowing (logging) any exception a single machine raises.  (The
partial mutations an aborted machine would leave behind are not modelled;
the claims concern exception-free updates.) -/
def updateStateMachines (fuel : ℕ) (env : EvalEnv) :
    List (String × StateMachine) → EvalEnv × List SMEvent
  | [] => (env, [])
  | (name, sm) :: rest =>
    match updateOneStateMachine fuel env name sm with
    | .ok (env', evs) =>
      let r := updateStateMachines fuel env' rest
      (r.1, evs ++ r.2)
    | .error _ =>
      let r := updateStateMachines fuel env rest
      (r.1, r.2)

/-- `StateMachineManager.force_state`: existence of the MACHINE is the only
check; the target state is written to the state variable unvalidated. -/
def forceState (machines : List (String × StateMachine)) (env : EvalEnv)
    (smName state : String) : Bool × EvalEnv :=
  if (machines.lookup smName).isSome then
    (true, { env with vars := setKey env.vars (smName ++ "_state") (.str state) })
  else (false, env)

/-- The transition loop of `transition_state`: first transition whose
`event` equals the given event and whose condition holds fires when its
target is valid and returns `True`; event-matching satisfied transitions
with invalid targets fall through. -/
def smEventLoop (fuel : ℕ) (env : EvalEnv) (smName : String) (current : Value)
    (ev : String) : List SMTransition → Except PyErr (Bool × EvalEnv × List SMEvent)
  | [] => .ok (false, env, [])
  | t :: rest => do
    if t.event = some ev then do
      let c ← checkTransitionCondition fuel env t
      if c then
        match t.toState with
        | some dst =>
          if dst ≠ "" && !pyEq (.str dst) current then
            let r := executeStateTransition env smName current t dst
            pure (true, r.1, r.2)
          else smEventLoop fuel env smName current ev rest
        | Option.none => smEventLoop fuel env smName current ev rest
      else smEventLoop fuel env smName current ev rest
    else smEventLoop fuel env smName current ev rest

/-- `StateMachineManager.transition_state`. -/
def transitionState (fuel : ℕ) (machines : List (String × StateMachine))
    (env : EvalEnv) (machineName ev : String) :
    Except PyErr (Bool × EvalEnv × List SMEvent) :=
  match machines.lookup machineName with
  | Option.none => .ok (false, env, [])
  | some sm =>
    match env.vars.lookup (machineName ++ "_state") with
    | Option.none => .ok (false, env, [])
    | some current =>
      if ¬pyTruthy current then .ok (false, env, [])
      else smEventLoop fuel env machineName current ev (currentStateDef sm current).transitions

/-! ## `EventManager` — scheduled events (src/domain/runtime/event_manager.py) -/

/-- A scheduled-event record after `_process_event_data` (which guarantees
`id`, `enabled` and `priority`); the remaining keys are read with
`event.get(..., default)`. -/
structure ScheduledEvent where
  id : String
  enabled : Bool := true
  trigger : String := ""
  chance : ℚ := 1
  action : String := ""

/-- `EventManager._check_time_trigger`: the four `time OP N` forms against
the game time; anything else is `False`.  An unparsable threshold raises
`ValueError`, which `check_scheduled_events` does not catch. -/
def checkTimeTrigger (trigger : String) (gameTime : ℚ) : Except PyErr Bool :=
  let t := trigger.data
  if "time > ".data.isPrefixOf t then do
    let th ← pyFloatChars (t.drop 7)
    pure (gameTime > th)
  else if "time >= ".data.isPrefixOf t then do
    let th ← pyFloatChars (t.drop 8)
    pure (gameTime ≥ th)
  else if "time < ".data.isPrefixOf t then do
    let th ← pyFloatChars (t.drop 7)
    pure (gameTime < th)
  else if "time <= ".data.isPrefixOf t then do
    let th ← pyFloatChars (t.drop 8)
    pure (gameTime ≤ th)
  else .ok false

/-- One firing of a scheduled event, standing for the pair of effects at
the firing site of `check_scheduled_events`: the `_execute_event_action`
call and the single `'event_triggered'` audit record appended to
`event_history`.  `position` is the event's index in `scheduled_events`
(ids need not be unique). -/
structure SchedFire where
  position : ℕ
  eventId : String
  action : String

/-- The loop of `EventManager.check_scheduled_events`, from position `i`:
disabled events are skipped; the time trigger gates; then the uniform draw
(`random.random()`, a value in `[0,1)`, here indexed by event position)
must be `≤ chance`.  A trigger exception aborts the whole check. -/
def checkScheduledFrom (gameTime : ℚ) (draws : ℕ → ℚ) :
    ℕ → List ScheduledEvent → Except PyErr (List SchedFire)
  | _, [] => .ok []
  | i, e :: rest =>
    if ¬e.enabled then checkScheduledFrom gameTime draws (i + 1) rest
    else do
      let trig ← checkTimeTrigger e.trigger gameTime
      let fires := if trig ∧ draws i ≤ e.chance then [⟨i, e.id, e.action⟩] else ([] : List SchedFire)
      let restFires ← checkScheduledFrom gameTime draws (i + 1) rest
      pure (fires ++ restFires)

/-- `EventManager.check_scheduled_events` (the draw for the event at
position `i` is `draws i`; `game_time` is the state variable). -/
def checkScheduledEvents (events : List ScheduledEvent) (gameTime : ℚ)
    (draws : ℕ → ℚ) : Except PyErr (List SchedFire) :=
  checkScheduledFrom gameTime draws 0 events

/-! ## `RandomManager` (src/domain/runtime/random_manager.py) -/

/-- A weighted-table entry; `entry.get('weight', 1)` and
`entry.get('item', '')` are modelled as fields with those defaults. -/
structure TableEntry where
  weight : ℚ := 1
  item : String := ""

/-- A random table; only its `entries` list is read by the roll. -/
structure RandomTable where
  entries : List TableEntry := []

/-- The walk of `roll_weighted_table`: accumulate weights and return the
first entry with `roll ≤ cumulative`. -/
def rollWalk (roll : ℚ) : List TableEntry → ℚ → Option String
  | [], _ => Option.none
  | e :: rest, cw =>
    let cw' := cw + e.weight
    if roll ≤ cw' then some e.item else rollWalk roll rest cw'

/-- `RandomManager.roll_weighted_table`, with the uniform draw
`roll ~ Uniform(0, total_weight)` passed in: `None` for a missing table,
empty entries or non-positive total weight; otherwise the cumulative walk,
with `entries[0]` as the (normally unreachable) fallback. -/
def rollWeightedTable (tables : List (String × RandomTable)) (tableName : String)
    (roll : ℚ) : Option String :=
  match tables.lookup tableName with
  | Option.none => Option.none
  | some table =>
    match table.entries with
    | [] => Option.none
    | e0 :: _ =>
      let totalWeight := table.entries.foldl (fun acc e => acc + e.weight) 0
      if totalWeight ≤ 0 then Option.none
      else
        match rollWalk roll table.entries 0 with
        | some item => some item
        | Option.none => some e0.item

/-- The sum of the first `k` weights of an entry list. -/
def cumWeight (entries : List TableEntry) (k : ℕ) : ℚ :=
  ((entries.take k).map TableEntry.weight).sum

/-- Modelled from the claim's words, NOT from the source (for comparison
with `rollWeightedTable`): inverse-CDF sampling returns the first entry, in
list order, whose cumulative weight is `≥ u`. -/
def firstCumulativeAtLeast (entries : List TableEntry) (u : ℚ) : Option String :=
  ((List.range entries.length).find? (fun i => u ≤ cumWeight entries (i + 1))).map
    (fun i => ((entries.drop i).headD {}).item)

/-! ## `StateManager` (src/infrastructure/state_manager.py)

`save_game` writes `{variables, flags, current_scene, active_effects}` as
JSON; `load_game` reads it back.  On the `Value` fragment (which is exactly
the JSON-serializable values), `json.dump` followed by `json.load` is the
identity, so the composition is modelled directly on the state record;
`list(set)`/`set(list)` is modelled with the flag set's sorted list. -/

/-- The infrastructure `StateManager`'s owned state: `variables`, `flags`,
`current_scene` and the DSL `active_effects` (name → effect dict). -/
structure StateStore where
  vars : List (String × Value) := []
  flags : Finset String := ∅
  currentScene : String := ""
  activeEffects : List (String × List (String × Value)) := []

deriving instance DecidableEq for SceneObject
deriving instance DecidableEq for ObjectState
deriving instance DecidableEq for ObjectDef
deriving instance DecidableEq for SceneData
deriving instance DecidableEq for EvalEnv
deriving instance DecidableEq for EffectData
deriving instance DecidableEq for EffectEvent
deriving instance DecidableEq for SMTransition
deriving instance DecidableEq for SMStateDef
deriving instance DecidableEq for StateMachine
deriving instance DecidableEq for SMEvent
deriving instance DecidableEq for ScheduledEvent
deriving instance DecidableEq for SchedFire
deriving instance DecidableEq for TableEntry
deriving instance DecidableEq for RandomTable
deriving instance DecidableEq for StateStore

/-- `StateManager.save_game`: the serialized state record (the flag set is
written out as a list). -/
def saveGame (s : StateStore) : Value :=
  .dict [("variables", .dict s.vars),
         ("flags", .list ((s.flags.sort (· ≤ ·)).map Value.str)),
         ("current_scene", .str s.currentScene),
         ("active_effects", .dict (s.activeEffects.map (fun kv => (kv.1, Value.dict kv.2))))]

/-- Decode a list of flag strings (the elements `set(...)` receives). -/
def decodeFlagList : List Value → Option (List String)
  | [] => some []
  | .str s :: rest => (decodeFlagList rest).map (fun l => s :: l)
  | _ => Option.none

/-- Decode the `active_effects` mapping. -/
def decodeEffects : List (String × Value) → Option (List (String × List (String × Value)))
  | [] => some []
  | (k, .dict d) :: rest => (decodeEffects rest).map (fun l => (k, d) :: l)
  | _ => Option.none

/-- `StateManager.load_game` on a parsed save record: read the four keys
with their defaults and rebuild the store (`flags` through `set(...)`).
A field of the wrong shape would leave CPython's manager holding ill-typed
state; that is modelled as a failed load. -/
def loadGame (v : Value) : Option StateStore :=
  match v with
  | .dict st => do
    let vars ← match st.lookup "variables" with
      | some (.dict d) => some d
      | Option.none => some []
      | _ => Option.none
    let flagList ← match st.lookup "flags" with
      | some (.list l) => decodeFlagList l
      | Option.none => some []
      | _ => Option.none
    let scene ← match st.lookup "current_scene" with
      | some (.str s) => some s
      | Option.none => some ""
      | _ => Option.none
    let effects ← match st.lookup "active_effects" with
      | some (.dict d) => decodeEffects d
      | Option.none => some []
      | _ => Option.none
    pure ⟨vars, flagList.toFinset, scene, effects⟩
  | _ => Option.none

/-! ## Helper lemmas -/

/-- Replacing the value at a present key is found by lookup. -/
lemma lookup_map_replace (k : String) (v : Value) :
    ∀ kvs : List (String × Value),
      (kvs.map (fun kv => if kv.1 = k then (k, v) else kv)).lookup k =
        if (kvs.lookup k).isSome then some v else Option.none := by
  intro kvs
  induction kvs with
  | nil => simp
  | cons hd tl ih =>
    simp only [List.map_cons]
    by_cases h : hd.1 = k
    · subst h
      rw [if_pos rfl]
      simp [List.lookup]
    · rw [if_neg h]
      have hbeq : (k == hd.1) = false := beq_eq_false_iff_ne.mpr (Ne.symm h)
      simp only [List.lookup, hbeq]
      exact ih

/-- `setKey` makes the key present with the given value. -/
lemma lookup_setKey_self (kvs : List (String × Value)) (k : String) (v : Value) :
    (setKey kvs k v).lookup k = some v := by
  unfold setKey
  by_cases h : (kvs.lookup k).isSome
  · simp [h, lookup_map_replace]
  · rw [if_neg h]
    have hnone : kvs.lookup k = Option.none := Option.not_isSome_iff_eq_none.mp h
    clear h
    induction kvs with
    | nil => simp [List.lookup]
    | cons hd tl ih =>
      simp only [List.lookup, List.cons_append] at hnone ⊢
      cases hbeq : (k == hd.1) with
      | true => rw [hbeq] at hnone; simp at hnone
      | false => rw [hbeq] at hnone; exact ih hnone

/-! ## Claim C5 — `force_state` target validation -/

/-- C5 counterexample: with a machine `m` whose states are `{A, B}`,
`force_state("m", "Z")` is NOT rejected: it returns `True` and writes the
invalid state `"Z"` into the current-state variable, refuting the claim
that a target outside the `states` mapping is rejected with the variable
left unchanged. -/
theorem C5_counterexample :
    (([("A", ({} : SMStateDef)), ("B", {})] : List (String × SMStateDef)).lookup "Z"
        = Option.none)
    ∧ forceState [("m", { states := [("A", {}), ("B", {})] })] {} "m" "Z"
        = (true, { vars := [("m_state", Value.str "Z")] }) := by
  constructor
  · with_unfolding_all decide
  · with_unfolding_all decide

/-- C5 (amended): `force_state(machine, state)` is rejected — returns
`False` with the store untouched — exactly when the MACHINE name does not
exist; when the machine exists the call returns `True` and writes `state`
into the machine's current-state variable without validating membership in
the machine's states mapping. -/
theorem C5_forceState_amended (machines : List (String × StateMachine)) (env : EvalEnv)
    (smName state : String) :
    (machines.lookup smName = Option.none → forceState machines env smName state = (false, env))
    ∧ (∀ sm, machines.lookup smName = some sm →
        (forceState machines env smName state).1 = true
        ∧ (forceState machines env smName state).2.vars.lookup (smName ++ "_state")
            = some (.str state)) := by
  unfold forceState
  constructor
  · intro h
    simp [h]
  · intro sm h
    simp [h, lookup_setKey_self]

/-- Witness for C5 (amended): a machine `m` with single state `A` exists, so
forcing the unknown state `Z` returns `True` and sets `m_state = "Z"`. -/
theorem C5_forceState_amended_witness :
    (forceState [("m", ({ states := [("A", {})] } : StateMachine))] {} "m" "Z").1 = true
    ∧ (forceState [("m", ({ states := [("A", {})] } : StateMachine))] {} "m" "Z").2.vars.lookup
        ("m" ++ "_state") = some (.str "Z") :=
  (C5_forceState_amended [("m", { states := [("A", {})] })] {} "m" "Z").2
    { states := [("A", {})] } (by with_unfolding_all decide)

/-! ## Claim C4 — `get_effect_modifier` aggregation -/

/-- C4 counterexample: with active effects carrying modifiers `+2`, `-2`
and `*3` for a stat, the claimed aggregation (sum the additives, multiply
the multiplicative into the running total) yields `0`, but the code yields
`3`: the multiplicative branch REPLACES a running total of exactly `0.0`
instead of multiplying into it. -/
theorem C4_counterexample :
    getEffectModifier
        [("e1", { modifiers := [("strength", Value.str "+2")] }),
         ("e2", { modifiers := [("strength", Value.str "-2")] }),
         ("e3", { modifiers := [("strength", Value.str "*3")] })]
        "strength" Option.none = .ok 3
    ∧ claimedEffectModifier
        [("e1", { modifiers := [("strength", Value.str "+2")] }),
         ("e2", { modifiers := [("strength", Value.str "-2")] }),
         ("e3", { modifiers := [("strength", Value.str "*3")] })]
        "strength" Option.none = .ok 0
    ∧ (Except.ok 3 : Except PyErr ℚ) ≠ .ok 0 := by
  refine ⟨?_, ?_, ?_⟩
  · with_unfolding_all decide
  · with_unfolding_all decide
  · with_unfolding_all decide

/-- C4 (amended): `get_effect_modifier` sums additive modifiers (`+N`,
`-N`, bare numeric) exactly as claimed — in the absence of multiplicative
modifiers it agrees with the claimed aggregation for every multiset and
order of effects — but a multiplicative modifier `*N` multiplies into the
running total only when that total is nonzero; a running total of exactly
`0.0` is REPLACED by `N`. -/
theorem C4_getEffectModifier_amended :
    (∀ (st : List (String × EffectData)) (statName : String) (target : Option String),
      ((getActiveEffects target st).all (fun kv =>
          match kv.2.modifiers.lookup statName with
          | some (.str s) => !"*".data.isPrefixOf s.data
          | _ => true)) = true →
      getEffectModifier st statName target = claimedEffectModifier st statName target)
    ∧ (∀ (st : List (String × EffectData)) (statName : String) (target : Option String)
        (name : String) (e : EffectData) (s : String) (m p : ℚ),
        e.modifiers.lookup statName = some (.str s) →
        "*".data.isPrefixOf s.data →
        pyFloatOfChars (s.data.drop 1) = some m →
        (target = Option.none ∨ target = some e.target) →
        getEffectModifier st statName target = .ok p →
        getEffectModifier (st ++ [(name, e)]) statName target
          = .ok (if p = 0 then m else p * m)) := by
  constructor
  · intro st statName target h
    unfold getEffectModifier claimedEffectModifier
    generalize hl : getActiveEffects target st = l at h
    clear hl
    suffices haux : ∀ (l : List (String × EffectData)) (init : ℚ),
        (l.all (fun kv =>
          match kv.2.modifiers.lookup statName with
          | some (.str s) => !"*".data.isPrefixOf s.data
          | _ => true)) = true →
        l.foldlM (fun total kv =>
            match kv.2.modifiers.lookup statName with
            | some mv => modifierStep total mv
            | Option.none => pure total) init
          = l.foldlM (fun total kv =>
            match kv.2.modifiers.lookup statName with
            | some mv => claimedModifierStep total mv
            | Option.none => pure total) init by
      exact haux l 0 h
    intro l
    induction l with
    | nil => intro init _; rfl
    | cons hd tl ih =>
      intro init hh
      rw [List.all_cons, Bool.and_eq_true] at hh
      have hstep :
          (match hd.2.modifiers.lookup statName with
           | some mv => modifierStep init mv
           | Option.none => pure init)
            = (match hd.2.modifiers.lookup statName with
               | some mv => claimedModifierStep init mv
               | Option.none => pure init) := by
        have hhd := hh.1
        cases hmv : hd.2.modifiers.lookup statName with
        | none => rfl
        | some mv =>
          rw [hmv] at hhd
          cases mv with
          | str s =>
            have hns : ("*".data.isPrefixOf s.data) = false := by
              simpa using hhd
            simp [modifierStep, claimedModifierStep, hns]
          | none => rfl
          | bool b => rfl
          | int n => rfl
          | float q => rfl
          | list xs => rfl
          | dict kvs => rfl
      rw [List.foldlM_cons, List.foldlM_cons, hstep]
      cases hg : (match hd.2.modifiers.lookup statName with
                  | some mv => claimedModifierStep init mv
                  | Option.none => pure init) with
      | error e => simp [hg, Bind.bind, Except.bind]
      | ok b =>
        simp only [hg, Bind.bind, Except.bind]
        exact ih b hh.2
  · intro st statName target name e s m p hmv hpre hparse htgt hp
    have hsingle : getActiveEffects target [(name, e)] = [(name, e)] := by
      rcases htgt with h | h
      · rw [h]; rfl
      · rw [h]; simp [getActiveEffects]
    have hsplit : getActiveEffects target (st ++ [(name, e)])
        = getActiveEffects target st ++ [(name, e)] := by
      cases target with
      | none => rfl
      | some t => rw [← hsingle]; simp [getActiveEffects]
    unfold getEffectModifier at hp ⊢
    rw [hsplit, List.foldlM_append, hp]
    simp only [Bind.bind, Except.bind, List.foldlM_cons, List.foldlM_nil, hmv]
    simp only [modifierStep, hpre, if_true, pyFloatChars, hparse]
    rfl

/-- Witness for C4 (amended): both parts applied concretely — two additive
modifiers `+2`, `-2` agree with the claimed sum `0`, and appending a `*3`
modifier to that zero total replaces it with `3`. -/
theorem C4_getEffectModifier_amended_witness :
    getEffectModifier
        [("e1", { modifiers := [("strength", Value.str "+2")] }),
         ("e2", { modifiers := [("strength", Value.str "-2")] })]
        "strength" Option.none
      = claimedEffectModifier
        [("e1", { modifiers := [("strength", Value.str "+2")] }),
         ("e2", { modifiers := [("strength", Value.str "-2")] })]
        "strength" Option.none
    ∧ getEffectModifier
        ([("e1", { modifiers := [("strength", Value.str "+2")] }),
          ("e2", { modifiers := [("strength", Value.str "-2")] })]
          ++ [("e3", { modifiers := [("strength", Value.str "*3")] })])
        "strength" Option.none = .ok (if (0 : ℚ) = 0 then 3 else 0 * 3) := by
  constructor
  · exact C4_getEffectModifier_amended.1
      [("e1", { modifiers := [("strength", Value.str "+2")] }),
       ("e2", { modifiers := [("strength", Value.str "-2")] })]
      "strength" Option.none (by with_unfolding_all decide)
  · exact C4_getEffectModifier_amended.2
      [("e1", { modifiers := [("strength", Value.str "+2")] }),
       ("e2", { modifiers := [("strength", Value.str "-2")] })]
      "strength" Option.none "e3" { modifiers := [("strength", Value.str "*3")] }
      "*3" 3 0 (by with_unfolding_all decide) (by with_unfolding_all decide)
      (by with_unfolding_all decide) (Or.inl rfl) (by with_unfolding_all decide)

/-! ## Claim C6 — weighted-table rolling -/

/-- `cumWeight` over a cons, one step in. -/
lemma cumWeight_cons (e : TableEntry) (rest : List TableEntry) (k : ℕ) :
    cumWeight (e :: rest) (k + 1) = e.weight + cumWeight rest k := by
  simp [cumWeight, List.take_succ_cons]

/-- The cumulative walk of `roll_weighted_table` returns exactly the first
entry (in list order) whose cumulative weight is `≥ roll`, for any starting
accumulator. -/
lemma rollWalk_eq_find (u : ℚ) :
    ∀ (es : List TableEntry) (cw : ℚ),
      rollWalk u es cw =
        ((List.range es.length).find? (fun i => u ≤ cw + cumWeight es (i + 1))).map
          (fun i => ((es.drop i).headD {}).item) := by
  intro es
  induction es with
  | nil => intro cw; simp [rollWalk]
  | cons e rest ih =>
    intro cw
    rw [rollWalk]
    rw [List.length_cons, List.range_succ_eq_map]
    by_cases h : u ≤ cw + e.weight
    · have hp : (decide (u ≤ cw + cumWeight (e :: rest) (0 + 1))) = true := by
        simpa [cumWeight_cons, cumWeight] using h
      rw [if_pos h]
      simp only [List.find?, hp]
      simp
    · have hp : (decide (u ≤ cw + cumWeight (e :: rest) (0 + 1))) = false := by
        simpa [cumWeight_cons, cumWeight] using h
      rw [if_neg h]
      simp only [List.find?, hp]
      rw [ih (cw + e.weight), List.find?_map]
      have harg : ((fun i => decide (u ≤ cw + cumWeight (e :: rest) (i + 1))) ∘ Nat.succ)
          = fun i => decide (u ≤ cw + e.weight + cumWeight rest (i + 1)) := by
        funext i
        simp only [Function.comp]
        rw [cumWeight_cons]
        rw [add_assoc]
      rw [harg]
      cases ((List.range rest.length).find?
          (fun i => decide (u ≤ cw + e.weight + cumWeight rest (i + 1)))) with
      | none => rfl
      | some i => simp [List.drop_succ_cons]

/-- When the draw is at most the total weight, some prefix sum reaches it. -/
lemma find_cum_isSome (es : List TableEntry) (u : ℚ) (hne : es ≠ [])
    (hu : u ≤ cumWeight es es.length) :
    ((List.range es.length).find? (fun i => u ≤ cumWeight es (i + 1))).isSome := by
  rw [List.find?_isSome]
  refine ⟨es.length - 1, ?_, ?_⟩
  · simp only [List.mem_range]
    have : 0 < es.length := List.length_pos.mpr hne
    omega
  · have hlen : es.length - 1 + 1 = es.length := by
      have : 0 < es.length := List.length_pos.mpr hne
      omega
    rw [hlen]
    simpa using hu

/-- C6: weighted rolling is cumulative-weight inverse-CDF sampling.  For
every table with positive total weight and every draw `u ∈ [0, total]`, the
roll returns the first entry, in list order, whose cumulative weight is
`≥ u` (and such an entry exists); in particular with weights `[5, 3]` the
draw `u = 2` selects the first entry and `u = 6` the second. -/
theorem C6_rollWeightedTable (tables : List (String × RandomTable)) (name : String)
    (table : RandomTable) (u : ℚ)
    (hfound : tables.lookup name = some table)
    (hw : 0 < cumWeight table.entries table.entries.length)
    (hu : u ≤ cumWeight table.entries table.entries.length) :
    (rollWeightedTable tables name u = firstCumulativeAtLeast table.entries u
      ∧ (firstCumulativeAtLeast table.entries u).isSome)
    ∧ rollWeightedTable [("t", ⟨[⟨5, "a"⟩, ⟨3, "b"⟩]⟩)] "t" 2 = some "a"
    ∧ rollWeightedTable [("t", ⟨[⟨5, "a"⟩, ⟨3, "b"⟩]⟩)] "t" 6 = some "b" := by
  refine ⟨?_, by with_unfolding_all decide, by with_unfolding_all decide⟩
  have hne : table.entries ≠ [] := by
    intro hemp
    rw [hemp] at hw
    simp [cumWeight] at hw
  have hsome := find_cum_isSome table.entries u hne hu
  have hfsome : (firstCumulativeAtLeast table.entries u).isSome := by
    unfold firstCumulativeAtLeast
    simpa using hsome
  have heq : rollWalk u table.entries 0 = firstCumulativeAtLeast table.entries u := by
    rw [rollWalk_eq_find u table.entries 0]
    unfold firstCumulativeAtLeast
    simp only [zero_add]
  refine ⟨?_, hfsome⟩
  obtain ⟨e0, rest, htab⟩ : ∃ e0 rest, table.entries = e0 :: rest := by
    cases h' : table.entries with
    | nil => exact absurd h' hne
    | cons a b => exact ⟨a, b, rfl⟩
  have htotal : table.entries.foldl (fun acc e => acc + e.weight) 0
      = cumWeight table.entries table.entries.length := by
    simp [cumWeight, List.take_length, List.sum_eq_foldl, List.foldl_map]
  rw [htab] at hw heq hfsome htotal
  simp only [rollWeightedTable, hfound, htab]
  rw [htotal, if_neg (not_le.mpr hw), heq]
  cases hfc : firstCumulativeAtLeast (e0 :: rest) u with
  | none => rw [hfc] at hfsome; simp at hfsome
  | some item => rfl

/-- Witness for C6: the table `[5, 3]` with draw `2` — the hypotheses hold
and the roll equals the inverse-CDF selection (the first entry). -/
theorem C6_rollWeightedTable_witness :
    (rollWeightedTable [("t", ⟨[⟨5, "a"⟩, ⟨3, "b"⟩]⟩)] "t" 2
        = firstCumulativeAtLeast [⟨5, "a"⟩, ⟨3, "b"⟩] 2
      ∧ (firstCumulativeAtLeast ([⟨5, "a"⟩, ⟨3, "b"⟩] : List TableEntry) 2).isSome)
    ∧ rollWeightedTable [("t", ⟨[⟨5, "a"⟩, ⟨3, "b"⟩]⟩)] "t" 2 = some "a"
    ∧ rollWeightedTable [("t", ⟨[⟨5, "a"⟩, ⟨3, "b"⟩]⟩)] "t" 6 = some "b" :=
  C6_rollWeightedTable [("t", ⟨[⟨5, "a"⟩, ⟨3, "b"⟩]⟩)] "t" ⟨[⟨5, "a"⟩, ⟨3, "b"⟩]⟩ 2
    (by with_unfolding_all decide) (by with_unfolding_all decide)
    (by with_unfolding_all decide)

/-! ## Claim C7 — save/load round trip -/

/-- Decoding an encoded flag list is the identity. -/
lemma decodeFlagList_map (l : List String) :
    decodeFlagList (l.map Value.str) = some l := by
  induction l with
  | nil => rfl
  | cons hd tl ih => simp [decodeFlagList, ih]

/-- Decoding an encoded active-effects mapping is the identity. -/
lemma decodeEffects_map (l : List (String × List (String × Value))) :
    decodeEffects (l.map (fun kv => (kv.1, Value.dict kv.2))) = some l := by
  induction l with
  | nil => rfl
  | cons hd tl ih => simp [decodeEffects, ih]

/-- C7: saving the game state and loading it back yields a store
structurally equal to the original — the same variable mapping, flag set,
current scene and active-effect map — for every state the `Value` fragment
(the JSON-serializable values) can hold. -/
theorem C7_saveLoad_roundtrip (s : StateStore) : loadGame (saveGame s) = some s := by
  have key : loadGame (saveGame s)
      = (decodeFlagList ((s.flags.sort (· ≤ ·)).map Value.str)).bind (fun flagList =>
          (decodeEffects (s.activeEffects.map (fun kv => (kv.1, Value.dict kv.2)))).bind
            (fun effects => some ⟨s.vars, flagList.toFinset, s.currentScene, effects⟩)) := by
    with_unfolding_all rfl
  rw [key, decodeFlagList_map, decodeEffects_map]
  simp [Finset.sort_toFinset]

/-! ## Claims C3 and C10 — transition selection -/

/-- A transition whose condition holds but whose target is invalid (absent,
falsy, or equal to the current state) is skipped by the update loop. -/
lemma smTransLoop_skip (fuel : ℕ) (env : EvalEnv) (smName : String) (current : Value)
    (t : SMTransition) (ts : List SMTransition)
    (hc : checkTransitionCondition fuel env t = .ok true)
    (hinv : validTarget t.toState current = false) :
    smTransLoop fuel env smName current (t :: ts) = smTransLoop fuel env smName current ts := by
  simp only [smTransLoop, hc, Bind.bind, Except.bind, if_true]
  cases ht : t.toState with
  | none => rfl
  | some dst =>
    rw [ht] at hinv
    have hinv' : (decide (dst ≠ "") && !pyEq (Value.str dst) current) = false := hinv
    show (if (decide (dst ≠ "") && !pyEq (Value.str dst) current) = true
        then (pure (executeStateTransition env smName current t dst) :
          Except PyErr (EvalEnv × List SMEvent))
        else smTransLoop fuel env smName current ts) = smTransLoop fuel env smName current ts
    rw [hinv']
    simp

/-- A transition whose condition holds but whose target is invalid is also
skipped by the event-driven loop, whether or not its event matches. -/
lemma smEventLoop_skip (fuel : ℕ) (env : EvalEnv) (smName : String) (current : Value)
    (ev : String) (t : SMTransition) (ts : List SMTransition)
    (hc : checkTransitionCondition fuel env t = .ok true)
    (hinv : validTarget t.toState current = false) :
    smEventLoop fuel env smName current ev (t :: ts)
      = smEventLoop fuel env smName current ev ts := by
  by_cases hev : t.event = some ev
  · simp only [smEventLoop, hev, if_true, hc, Bind.bind, Except.bind]
    cases ht : t.toState with
    | none => simp
    | some dst =>
      rw [ht] at hinv
      have hinv' : (decide (dst ≠ "") && !pyEq (Value.str dst) current) = false := hinv
      show (if (decide (dst ≠ "") && !pyEq (Value.str dst) current) = true
          then (pure (true, (executeStateTransition env smName current t dst).1,
              (executeStateTransition env smName current t dst).2) :
            Except PyErr (Bool × EvalEnv × List SMEvent))
          else smEventLoop fuel env smName current ev ts)
        = smEventLoop fuel env smName current ev ts
      rw [hinv']
      simp
  · simp [smEventLoop, hev]

/-- The update loop distributes over an irrelevant inserted transition. -/
lemma smTransLoop_append_skip (fuel : ℕ) (env : EvalEnv) (smName : String)
    (current : Value) (t : SMTransition) (ts2 : List SMTransition)
    (hc : checkTransitionCondition fuel env t = .ok true)
    (hinv : validTarget t.toState current = false) :
    ∀ ts1 : List SMTransition,
      smTransLoop fuel env smName current (ts1 ++ t :: ts2)
        = smTransLoop fuel env smName current (ts1 ++ ts2) := by
  intro ts1
  induction ts1 with
  | nil => exact smTransLoop_skip fuel env smName current t ts2 hc hinv
  | cons t' rest ih =>
    simp only [List.cons_append, smTransLoop, List.append_eq]
    rw [ih]

/-- The event loop distributes over an irrelevant inserted transition. -/
lemma smEventLoop_append_skip (fuel : ℕ) (env : EvalEnv) (smName : String)
    (current : Value) (ev : String) (t : SMTransition) (ts2 : List SMTransition)
    (hc : checkTransitionCondition fuel env t = .ok true)
    (hinv : validTarget t.toState current = false) :
    ∀ ts1 : List SMTransition,
      smEventLoop fuel env smName current ev (ts1 ++ t :: ts2)
        = smEventLoop fuel env smName current ev (ts1 ++ ts2) := by
  intro ts1
  induction ts1 with
  | nil => exact smEventLoop_skip fuel env smName current ev t ts2 hc hinv
  | cons t' rest ih =>
    simp only [List.cons_append, smEventLoop, List.append_eq]
    rw [ih]

/-- C10: during state-machine updates and event-driven transitions, a
satisfied transition whose `to` target is missing, falsy, or equal to the
current state causes no transition at all — the run of the loop with that
transition inserted anywhere equals the run without it (same final store,
same executed actions, same emitted transition events), so evaluation
continues with the subsequent transitions instead of stopping there. -/
theorem C10_invalid_target_transitions_skipped (fuel : ℕ) (env : EvalEnv)
    (smName : String) (current : Value) (ev : String)
    (ts1 ts2 : List SMTransition) (t : SMTransition)
    (hc : checkTransitionCondition fuel env t = .ok true)
    (hinv : validTarget t.toState current = false) :
    smTransLoop fuel env smName current (ts1 ++ t :: ts2)
      = smTransLoop fuel env smName current (ts1 ++ ts2)
    ∧ smEventLoop fuel env smName current ev (ts1 ++ t :: ts2)
      = smEventLoop fuel env smName current ev (ts1 ++ ts2) :=
  ⟨smTransLoop_append_skip fuel env smName current t ts2 hc hinv ts1,
   smEventLoop_append_skip fuel env smName current ev t ts2 hc hinv ts1⟩

/-- Witness for C10: a satisfied self-target transition (`to` equal to the
current state `A`) inserted in front of a satisfied transition to `B`
changes nothing about the update loop or the event loop. -/
theorem C10_invalid_target_transitions_skipped_witness :
    smTransLoop 1 {} "m" (.str "A")
        ([] ++ ⟨some "true", some "A", Option.none, []⟩ ::
          [⟨some "true", some "B", Option.none, []⟩])
      = smTransLoop 1 {} "m" (.str "A") ([] ++ [⟨some "true", some "B", Option.none, []⟩])
    ∧ smEventLoop 1 {} "m" (.str "A") "go"
        ([] ++ ⟨some "true", some "A", Option.none, []⟩ ::
          [⟨some "true", some "B", Option.none, []⟩])
      = smEventLoop 1 {} "m" (.str "A") "go" ([] ++ [⟨some "true", some "B", Option.none, []⟩]) :=
  C10_invalid_target_transitions_skipped 1 {} "m" (.str "A") "go" []
    [⟨some "true", some "B", Option.none, []⟩] ⟨some "true", some "A", Option.none, []⟩
    (by with_unfolding_all decide) (by with_unfolding_all decide)

/-- C3 counterexample: with current state `A` and transitions
`[{condition: "true", to: A}, {condition: "true", to: B}]`, the FIRST
transition's condition holds, yet the loop's outcome differs from what it
would be with only that first transition — the second transition is the one
applied — refuting "the first transition whose condition holds is the one
applied". -/
theorem C3_counterexample :
    checkTransitionCondition 1 {} ⟨some "true", some "A", Option.none, []⟩ = .ok true
    ∧ smTransLoop 1 {} "m" (.str "A")
        [⟨some "true", some "A", Option.none, []⟩, ⟨some "true", some "B", Option.none, []⟩]
      ≠ smTransLoop 1 {} "m" (.str "A") [⟨some "true", some "A", Option.none, []⟩] := by
  constructor
  · with_unfolding_all decide
  · with_unfolding_all decide

/-- C3 (amended): transitions of the current state are evaluated in
declaration order, and the first transition whose condition holds AND whose
`to` target is present, truthy and different from the current state is the
one applied (a satisfied transition with an invalid target is skipped, and
a transition whose condition fails is skipped); in particular, with states
`{A: {transitions: [{condition: "true", to: B}]}, B: {}}` and current state
`A`, a single update call moves the current state from `A` to `B` — for
EVERY definition of state `B`, so `B`'s transitions are not evaluated in
that same call. -/
theorem C3_first_satisfied_valid_transition_wins :
    (∀ (fuel : ℕ) (env : EvalEnv) (smName : String) (current : Value)
        (t0 : SMTransition) (ts : List SMTransition) (dst : String),
      checkTransitionCondition fuel env t0 = .ok true →
      t0.toState = some dst →
      (dst ≠ "" && !pyEq (.str dst) current) = true →
      smTransLoop fuel env smName current (t0 :: ts)
        = .ok (executeStateTransition env smName current t0 dst))
    ∧ (∀ (fuel : ℕ) (env : EvalEnv) (smName : String) (current : Value)
        (t0 : SMTransition) (ts : List SMTransition),
      checkTransitionCondition fuel env t0 = .ok false →
      smTransLoop fuel env smName current (t0 :: ts)
        = smTransLoop fuel env smName current ts)
    ∧ (∀ (fuel : ℕ) (bdef : SMStateDef),
      updateOneStateMachine (fuel + 1) { vars := [("guard_state", .str "A")] } "guard"
          { states := [("A", ⟨[⟨some "true", some "B", Option.none, []⟩], []⟩), ("B", bdef)] }
        = .ok ({ vars := [("guard_state", .str "B")] },
            [.transitioned "guard" (.str "A") "B"])) := by
  refine ⟨?_, ?_, ?_⟩
  · intro fuel env smName current t0 ts dst hc ht hv
    simp only [smTransLoop, hc, Bind.bind, Except.bind, ht, if_true]
    rw [if_pos hv]
    rfl
  · intro fuel env smName current t0 ts hc
    simp only [smTransLoop, hc, Bind.bind, Except.bind]
    rfl
  · intro fuel bdef
    with_unfolding_all rfl

/-- Witness for C3 (amended): the scenario machine — the satisfied `A → B`
transition fires, and one update of the machine (with `B` empty) moves the
state variable to `B`. -/
theorem C3_first_satisfied_valid_transition_wins_witness :
    smTransLoop 1 {} "guard" (.str "A") [⟨some "true", some "B", Option.none, []⟩]
      = .ok (executeStateTransition {} "guard" (.str "A")
          ⟨some "true", some "B", Option.none, []⟩ "B")
    ∧ updateOneStateMachine (0 + 1) { vars := [("guard_state", .str "A")] } "guard"
          { states := [("A", ⟨[⟨some "true", some "B", Option.none, []⟩], []⟩), ("B", {})] }
        = .ok ({ vars := [("guard_state", .str "B")] },
            [.transitioned "guard" (.str "A") "B"]) :=
  ⟨C3_first_satisfied_valid_transition_wins.1 1 {} "guard" (.str "A")
      ⟨some "true", some "B", Option.none, []⟩ [] "B"
      (by with_unfolding_all decide) rfl (by with_unfolding_all decide),
   C3_first_satisfied_valid_transition_wins.2.2 0 {}⟩

/-! ## Claim C8 — scheduled events -/

/-- Every firing recorded from position `j` on carries a position `≥ j`. -/
lemma sched_positions_ge (gameTime : ℚ) (draws : ℕ → ℚ) :
    ∀ (evs : List ScheduledEvent) (j : ℕ) (l : List SchedFire),
      checkScheduledFrom gameTime draws j evs = .ok l → ∀ f ∈ l, j ≤ f.position := by
  intro evs
  induction evs with
  | nil =>
    intro j l h f hf
    simp only [checkScheduledFrom] at h
    cases h
    simp at hf
  | cons e rest ih =>
    intro j l h f hf
    simp only [checkScheduledFrom] at h
    by_cases he : e.enabled
    · rw [if_neg (by simpa using he)] at h
      cases htr : checkTimeTrigger e.trigger gameTime with
      | error err => rw [htr] at h; simp [Bind.bind, Except.bind] at h
      | ok b =>
        rw [htr] at h
        simp only [Bind.bind, Except.bind] at h
        cases hrest : checkScheduledFrom gameTime draws (j + 1) rest with
        | error err => rw [hrest] at h; simp at h
        | ok rl =>
          rw [hrest] at h
          simp only [pure, Except.pure, Except.ok.injEq] at h
          subst h
          rcases List.mem_append.mp hf with hfl | hfr
          · by_cases hfire : b = true ∧ draws j ≤ e.chance
            · rw [if_pos hfire] at hfl
              have hfeq : f = ⟨j, e.id, e.action⟩ := by simpa using hfl
              subst hfeq
              simp
            · rw [if_neg hfire] at hfl
              simp at hfl
          · have := ih (j + 1) rl hrest f hfr
            omega
    · rw [if_pos (by simpa using he)] at h
      have := ih (j + 1) l h f hf
      omega

/-- The contribution of the event at position `j + pre.length` to a
scheduled check that returns normally: one firing when the time trigger
holds and the draw passes the chance gate, none otherwise; no other event
contributes at that position. -/
lemma sched_contribution (gameTime : ℚ) (draws : ℕ → ℚ) (eid a : String) (b : Bool)
    (htrig : checkTimeTrigger "time > 100" gameTime = .ok b) :
    ∀ (pre : List ScheduledEvent) (post : List ScheduledEvent) (j : ℕ) (tr : List SchedFire),
      checkScheduledFrom gameTime draws j
          (pre ++ (⟨eid, true, "time > 100", 1, a⟩ : ScheduledEvent) :: post) = .ok tr →
      tr.filter (fun f => f.position == j + pre.length)
        = if b = true ∧ draws (j + pre.length) ≤ 1
          then [⟨j + pre.length, eid, a⟩] else [] := by
  intro pre
  induction pre with
  | nil =>
    intro post j tr h
    simp only [List.nil_append, checkScheduledFrom] at h
    rw [if_neg (by simp)] at h
    rw [htrig] at h
    simp only [Bind.bind, Except.bind] at h
    cases hrest : checkScheduledFrom gameTime draws (j + 1) post with
    | error err => rw [hrest] at h; simp at h
    | ok rl =>
      rw [hrest] at h
      simp only [pure, Except.pure, Except.ok.injEq] at h
      subst h
      have hrl : rl.filter (fun f => f.position == j + List.length ([] : List ScheduledEvent))
          = [] := by
        rw [List.filter_eq_nil_iff]
        intro f hf
        have := sched_positions_ge gameTime draws post (j + 1) rl hrest f hf
        simp only [List.length_nil, Nat.add_zero]
        intro hbeq
        have : f.position = j := by simpa using hbeq
        omega
      rw [List.filter_append, hrl, List.append_nil]
      by_cases hfire : b = true ∧ draws j ≤ (1 : ℚ)
      · rw [if_pos hfire]
        rw [if_pos (by simpa using hfire)]
        simp
      · rw [if_neg hfire]
        rw [if_neg (by simpa using hfire)]
        simp
  | cons e' pre' ih =>
    intro post j tr h
    simp only [List.cons_append, checkScheduledFrom, List.append_eq] at h
    by_cases he : e'.enabled
    · rw [if_neg (by simpa using he)] at h
      cases htr' : checkTimeTrigger e'.trigger gameTime with
      | error err => rw [htr'] at h; simp [Bind.bind, Except.bind] at h
      | ok b' =>
        rw [htr'] at h
        simp only [Bind.bind, Except.bind] at h
        cases hrest : checkScheduledFrom gameTime draws (j + 1)
            (pre' ++ (⟨eid, true, "time > 100", 1, a⟩ : ScheduledEvent) :: post) with
        | error err => rw [hrest] at h; simp at h
        | ok rl =>
          rw [hrest] at h
          simp only [pure, Except.pure, Except.ok.injEq] at h
          subst h
          have hfires : (if b' = true ∧ draws j ≤ e'.chance
              then [(⟨j, e'.id, e'.action⟩ : SchedFire)] else []).filter
                (fun f => f.position == j + (e' :: pre').length) = [] := by
            rw [List.filter_eq_nil_iff]
            intro f hf
            by_cases hfire : b' = true ∧ draws j ≤ e'.chance
            · rw [if_pos hfire] at hf
              simp at hf
              rw [hf]
              simp only [List.length_cons]
              intro hbeq
              simp at hbeq
            · rw [if_neg hfire] at hf
              simp at hf
          rw [List.filter_append, hfires, List.nil_append]
          have := ih post (j + 1) rl hrest
          rw [show j + 1 + pre'.length = j + (e' :: pre').length by simp; omega] at this
          exact this
    · rw [if_pos (by simpa using he)] at h
      have := ih post (j + 1) tr h
      rw [show j + 1 + pre'.length = j + (e' :: pre').length by simp; omega] at this
      exact this

/-- C8: an enabled scheduled event with trigger `"time > 100"`, chance
`1.0` and a configured action fires exactly once — one action execution and
one audit record — on every check that returns normally while
`game_time = 150` (for every draw in `[0, 1)`), and never fires on a check
performed while `game_time = 50`. -/
theorem C8_scheduled_time_trigger (pre post : List ScheduledEvent) (eid a : String)
    (draws : ℕ → ℚ) :
    (∀ tr, checkScheduledEvents
        (pre ++ (⟨eid, true, "time > 100", 1, a⟩ : ScheduledEvent) :: post) 150 draws
          = .ok tr →
      draws pre.length < 1 →
      tr.filter (fun f => f.position == pre.length) = [⟨pre.length, eid, a⟩])
    ∧ (∀ tr, checkScheduledEvents
        (pre ++ (⟨eid, true, "time > 100", 1, a⟩ : ScheduledEvent) :: post) 50 draws
          = .ok tr →
      tr.filter (fun f => f.position == pre.length) = []) := by
  constructor
  · intro tr h hd
    have htrig : checkTimeTrigger "time > 100" (150 : ℚ) = .ok true := by
      with_unfolding_all decide
    have := sched_contribution 150 draws eid a true htrig pre post 0 tr h
    simp only [Nat.zero_add] at this
    rw [this]
    simp [le_of_lt hd]
  · intro tr h
    have htrig : checkTimeTrigger "time > 100" (50 : ℚ) = .ok false := by
      with_unfolding_all decide
    have := sched_contribution 50 draws eid a false htrig pre post 0 tr h
    simp only [Nat.zero_add] at this
    rw [this]
    simp

/-- Witness for C8: a single-event list with draw `1/2` — the check at
`game_time = 150` fires the event exactly once, and at `game_time = 50`
not at all. -/
theorem C8_scheduled_time_trigger_witness :
    ([(⟨0, "e1", "spawn_x"⟩ : SchedFire)].filter
        (fun f => f.position == ([] : List ScheduledEvent).length)
      = [⟨([] : List ScheduledEvent).length, "e1", "spawn_x"⟩])
    ∧ (([] : List SchedFire).filter
        (fun f => f.position == ([] : List ScheduledEvent).length) = []) :=
  ⟨(C8_scheduled_time_trigger [] [] "e1" "spawn_x" (fun _ => 1/2)).1
      [⟨0, "e1", "spawn_x"⟩] (by with_unfolding_all decide) (by with_unfolding_all decide),
   (C8_scheduled_time_trigger [] [] "e1" "spawn_x" (fun _ => 1/2)).2
      [] (by with_unfolding_all decide)⟩

/-! ## Claim C9 — `evaluate_condition("health == 100")` -/

/-- The digit character of `d < 10` reads back as `48 + d`. -/
lemma digitChar_toNat (d : ℕ) (h : d < 10) : (digitChar d).toNat = 48 + d := by
  interval_cases d <;> rfl

/-- Appending one digit multiplies the read-back value by ten. -/
lemma digitsToNat_append (l : List Char) (c : Char) :
    digitsToNat (l ++ [c]) = 10 * digitsToNat l + (c.toNat - 48) := by
  simp [digitsToNat, List.foldl_append]

/-- With sufficient fuel, reading the printed digits of `n` back gives `n`. -/
lemma digitsToNat_natChars : ∀ (fuel n : ℕ), n < fuel → digitsToNat (natChars fuel n) = n := by
  intro fuel
  induction fuel with
  | zero => intro n h; omega
  | succ f ih =>
    intro n h
    rw [natChars]
    by_cases h10 : n < 10
    · rw [if_pos h10]
      have := digitChar_toNat n h10
      simp [digitsToNat, this]
    · rw [if_neg h10]
      rw [digitsToNat_append]
      have hdiv : n / 10 < f := by omega
      rw [ih (n / 10) hdiv]
      have hmod : (digitChar (n % 10)).toNat = 48 + n % 10 :=
        digitChar_toNat (n % 10) (Nat.mod_lt n (by norm_num))
      rw [hmod]
      omega

/-- The printed natural number `n` equals `"100"` exactly when `n = 100`. -/
lemma natStr_eq_100_iff (n : ℕ) : natStr n = "100".data ↔ n = 100 := by
  constructor
  · intro h
    have h1 : digitsToNat (natStr n) = n := digitsToNat_natChars (n + 1) n (by omega)
    rw [h] at h1
    have h2 : digitsToNat "100".data = 100 := by with_unfolding_all decide
    omega
  · intro h
    subst h
    with_unfolding_all decide

/-- A printed float always contains a decimal point. -/
lemma dot_mem_floatStr (q : ℚ) : '.' ∈ floatStr q := by
  unfold floatStr
  simp

/-- `str(v) = "100"` holds exactly for the integer `100` and the string
`"100"`: every other value prints differently (floats carry a `'.'`,
booleans and `None` print words, containers open with a bracket). -/
lemma pyStr_eq_100_iff (v : Value) :
    pyStr v = "100".data ↔ (v = .int 100 ∨ v = .str "100") := by
  constructor
  · intro h
    cases v with
    | none =>
      rw [show pyStr Value.none = "None".data from by with_unfolding_all rfl] at h
      exact absurd h (by decide)
    | bool b =>
      cases b with
      | true =>
        rw [show pyStr (Value.bool true) = "True".data from by with_unfolding_all rfl] at h
        exact absurd h (by decide)
      | false =>
        rw [show pyStr (Value.bool false) = "False".data from by with_unfolding_all rfl] at h
        exact absurd h (by decide)
    | int n =>
      rw [show pyStr (Value.int n) = intStr n from by simp [pyStr]] at h
      unfold intStr at h
      by_cases hneg : n < 0
      · rw [if_pos hneg] at h
        have := (List.cons.inj h).1
        exact absurd this (by decide)
      · rw [if_neg hneg] at h
        have h100 := (natStr_eq_100_iff n.natAbs).mp h
        left
        have : n = 100 := by omega
        rw [this]
    | float q =>
      rw [show pyStr (Value.float q) = floatStr q from by simp [pyStr]] at h
      have hdot := dot_mem_floatStr q
      rw [h] at hdot
      exact absurd hdot (by decide)
    | str s =>
      rw [show pyStr (Value.str s) = s.data from by simp [pyStr]] at h
      right
      cases s with
      | mk data =>
        simp only [String.data] at h
        rw [h]
    | list xs =>
      rw [show pyStr (Value.list xs) = '[' :: pyStrList xs ++ [']'] from by
        simp [pyStr]] at h
      have := (List.cons.inj h).1
      exact absurd this (by decide)
    | dict kvs =>
      rw [show pyStr (Value.dict kvs) = '\x7b' :: pyStrDict kvs ++ ['\x7d'] from by
        simp [pyStr]] at h
      have := (List.cons.inj h).1
      exact absurd this (by decide)
  · intro h
    rcases h with h | h
    · rw [h]; with_unfolding_all decide
    · rw [h]; with_unfolding_all decide

/-- C9 counterexample: with the STRING `"100"` stored in `health`,
`evaluate_condition("health == 100")` returns `True`, although the store
does not hold the number `100` — refuting "false for every other stored
value". -/
theorem C9_counterexample :
    evalCondC 10 { vars := [("health", Value.str "100")] } "health == 100".data = .ok true
    ∧ ([("health", Value.str "100")] : List (String × Value)).lookup "health"
        ≠ some (.int 100) := by
  constructor
  · with_unfolding_all decide
  · with_unfolding_all decide

/-- C9 (amended): `evaluate_condition("health == 100")` never raises and
returns `True` exactly when the variable store holds `health = 100` (the
integer) or `health = "100"` (the string whose `str()` form coincides); for
every other stored value and when `health` is unset it returns `False`. -/
theorem C9_health_eq_100_amended (fuel : ℕ) (env : EvalEnv) :
    evalCondC (fuel + 1) env "health == 100".data
      = .ok (decide (env.vars.lookup "health" = some (.int 100)
          ∨ env.vars.lookup "health" = some (.str "100"))) := by
  have key : evalCondC (fuel + 1) env "health == 100".data
      = .ok (pyStr (match env.vars.lookup "health" with
          | some v => v
          | Option.none => .str "health") == "100".data) := by
    with_unfolding_all rfl
  rw [key]
  cases hl : env.vars.lookup "health" with
  | none =>
    rw [show (pyStr (Value.str "health") == "100".data) = false from by
      with_unfolding_all decide]
    simp
  | some v =>
    congr 1
    rw [Bool.eq_iff_iff]
    constructor
    · intro hb
      have : pyStr v = "100".data := by simpa using hb
      have := (pyStr_eq_100_iff v).mp this
      simp [this]
    · intro hb
      have hv : v = .int 100 ∨ v = .str "100" := by simpa using hb
      have : pyStr v = "100".data := (pyStr_eq_100_iff v).mpr hv
      simpa using this

/-! ## Claim C1 — error handling in the evaluators -/

/-- A separator that does not occur splits to nothing. -/
lemma containsSub_false_splitOnce {sep s : List Char} (h : containsSub sep s = false) :
    splitOnce sep s = Option.none := by
  unfold containsSub at h
  cases hs : splitOnce sep s with
  | none => rfl
  | some p => rw [hs] at h; simp at h

/-- C1 counterexample: evaluating the condition `"a > b"` against an empty
store raises an uncaught `ValueError` (from `float("a")`) instead of
resolving to `False` — the condition evaluator propagates the exception to
the caller. -/
theorem C1_counterexample :
    evaluateCondition 10 {} (some "a > b") = .error .valueError := by
  with_unfolding_all decide

/-- C1 (amended): transient errors are caught and resolved to `0` inside
`ExpressionEvaluator.evaluate_expression` (VALUE expressions), and
`evaluate_condition` resolves empty conditions and every unsupported
condition form to `True`; but transient errors arising inside CONDITION
evaluation — e.g. a numeric comparison whose operand cannot be coerced to
float — are NOT caught and propagate to the caller. -/
theorem C1_evaluation_error_handling_amended :
    ((∀ v : Value, evaluateExpression (.ok v) = v)
      ∧ (∀ e : PyErr, evaluateExpression (.error e) = .int 0))
    ∧ (∀ (fuel : ℕ) (env : EvalEnv),
        evaluateCondition fuel env Option.none = .ok true
        ∧ evaluateCondition (fuel + 1) env (some "") = .ok true)
    ∧ (∀ (fuel : ℕ) (env : EvalEnv) (cond : List Char),
        cond ≠ [] →
        containsSub " and ".data cond = false →
        containsSub " or ".data cond = false →
        containsSub "==".data cond = false →
        containsSub "has_flag".data cond = false →
        containsSub "has_item".data cond = false →
        containsSub ">=".data cond = false →
        containsSub "<=".data cond = false →
        containsSub ">".data cond = false →
        containsSub "<".data cond = false →
        cond.head? ≠ some '!' →
        "exists:".data.isPrefixOf cond = false →
        containsSub ".".data cond = false →
        evalCondC (fuel + 1) env cond = .ok true)
    ∧ evaluateCondition 10 {} (some "p < q") = .error .valueError := by
  refine ⟨⟨fun v => rfl, fun e => rfl⟩, fun fuel env => ⟨rfl, by with_unfolding_all rfl⟩,
    ?_, by with_unfolding_all decide⟩
  intro fuel env cond hne hand hor heq hflag hitem hge hle hgt hlt hbang hex hdot
  have hemp : cond.isEmpty = false := by
    cases cond with
    | nil => exact absurd rfl hne
    | cons c cs => rfl
  rw [evalCondC]
  rw [hemp]
  rw [containsSub_false_splitOnce hand, containsSub_false_splitOnce hor,
    containsSub_false_splitOnce heq]
  rw [hflag]
  rw [hitem]
  rw [containsSub_false_splitOnce hge, containsSub_false_splitOnce hle,
    containsSub_false_splitOnce hgt, containsSub_false_splitOnce hlt]
  simp only [Bool.false_eq_true, if_false]
  rw [if_neg hbang]
  rw [hex]
  simp only [Bool.false_eq_true, if_false]
  rw [containsSub_false_splitOnce hdot]

/-! ## Claim C2 — effect expiry after `d` updates -/

/-- The tick phase never raises for a tick-safe effect, and neither touches
the duration or the remove actions nor emits remove events. -/
lemma effectTickPhase_ok (now : ℚ) (name : String) (data : EffectData)
    (h : tickOk data = true) :
    ∃ (e' : EffectData) (evs : List EffectEvent),
      effectTickPhase now name data = .ok ((name, e'), false, evs)
      ∧ e'.duration = data.duration
      ∧ e'.removeActions = data.removeActions
      ∧ tickOk e' = true
      ∧ (∀ nm, evs.filter (isRemoveEventFor nm) = []) := by
  unfold effectTickPhase
  split
  case h_2 => exact ⟨data, [], rfl, rfl, rfl, h, fun nm => rfl⟩
  case h_1 t ht =>
    by_cases hte : t = ""
    · rw [if_pos hte]
      exact ⟨data, [], rfl, rfl, rfl, h, fun nm => rfl⟩
    · rw [if_neg hte]
      have hrate : ¬data.tickRate = 0 := by
        unfold tickOk at h
        rw [ht] at h
        simp only [Bool.or_eq_true, beq_iff_eq, Bool.not_eq_true', decide_eq_false_iff_not] at h
        rcases h with h | h
        · exact absurd h hte
        · exact h
      rw [if_neg hrate]
      by_cases helapsed : pyIntTrunc ((now - data.startTime) / data.tickRate) > data.lastTick
      · rw [if_pos helapsed]
        refine ⟨{ data with lastTick := pyIntTrunc ((now - data.startTime) / data.tickRate) },
          [.act name "tick" (.str t)], rfl, rfl, rfl, ?_, fun nm => ?_⟩
        · simp only [tickOk, ht] at h ⊢
          exact h
        · simp [isRemoveEventFor, List.filter]
      · rw [if_neg helapsed]
        exact ⟨data, [], rfl, rfl, rfl, h, fun nm => rfl⟩

/-- One loop iteration on a tick-safe entry: no exception, the key is
preserved, a positive duration is decremented, the expired flag is exactly
"the duration was `1`", the remove actions are untouched and no remove
event is emitted. -/
lemma updateEffectEntry_ok (now : ℚ) (n : String) (e : EffectData)
    (h : tickOk e = true) :
    ∃ (e' : EffectData) (evs : List EffectEvent),
      updateEffectEntry now (n, e) = .ok ((n, e'), decide (e.duration = 1), evs)
      ∧ e'.duration = (if 0 < e.duration then e.duration - 1 else e.duration)
      ∧ e'.removeActions = e.removeActions
      ∧ tickOk e' = true
      ∧ (∀ nm, evs.filter (isRemoveEventFor nm) = []) := by
  unfold updateEffectEntry
  by_cases hd : e.duration > 0
  · rw [if_pos hd]
    by_cases hexp : e.duration - 1 ≤ 0
    · have hdec : decide (e.duration = 1) = true := by
        simp only [decide_eq_true_eq]
        omega
      rw [if_pos hexp, hdec]
      refine ⟨{ e with duration := e.duration - 1 }, [], rfl, ?_, rfl, ?_, fun nm => rfl⟩
      · simp [if_pos hd]
      · unfold tickOk at h ⊢
        exact h
    · have hdec : decide (e.duration = 1) = false := by
        simp only [decide_eq_false_iff_not]
        omega
      rw [if_neg hexp, hdec]
      obtain ⟨e', evs, heq, hdur, hrem, htick, hevs⟩ :=
        effectTickPhase_ok now n { e with duration := e.duration - 1 }
          (by unfold tickOk at h ⊢; exact h)
      refine ⟨e', evs, heq, ?_, hrem, htick, hevs⟩
      rw [hdur]
      simp [if_pos hd]
  · rw [if_neg hd]
    have hdec : decide (e.duration = 1) = false := by
      simp only [decide_eq_false_iff_not]
      omega
    rw [hdec]
    obtain ⟨e', evs, heq, hdur, hrem, htick, hevs⟩ := effectTickPhase_ok now n e h
    refine ⟨e', evs, heq, ?_, hrem, htick, hevs⟩
    rw [hdur]
    simp [if_neg hd]

/-- The first phase of a tick-safe update never raises; it preserves keys,
tick safety and remove actions, decrements positive durations, collects as
expired exactly the names of entries whose duration was `1`, and emits no
remove events. -/
lemma updateEffectsPhase1_props (now : ℚ) :
    ∀ (st : List (String × EffectData)),
      st.all (fun kv => tickOk kv.2) = true →
      ∃ st' evs,
        updateEffectsPhase1 now st
          = .ok (st', (st.filter (fun kv => decide (kv.2.duration = 1))).map Prod.fst, evs)
        ∧ st'.map Prod.fst = st.map Prod.fst
        ∧ st'.all (fun kv => tickOk kv.2) = true
        ∧ (∀ nm, evs.filter (isRemoveEventFor nm) = [])
        ∧ (∀ nm, match st.lookup nm with
            | some e => ∃ e', st'.lookup nm = some e'
                ∧ e'.duration = (if 0 < e.duration then e.duration - 1 else e.duration)
                ∧ e'.removeActions = e.removeActions
            | Option.none => st'.lookup nm = Option.none) := by
  intro st
  induction st with
  | nil =>
    intro _
    exact ⟨[], [], rfl, rfl, rfl, fun nm => rfl, fun nm => rfl⟩
  | cons kv rest ih =>
    intro hall
    rw [List.all_cons, Bool.and_eq_true] at hall
    obtain ⟨e', evs0, hentry, hdur, hrem, htick, hevs0⟩ :=
      updateEffectEntry_ok now kv.1 kv.2 hall.1
    obtain ⟨rest', evsR, hrec, hkeys, hallR, hevsR, hlook⟩ := ih hall.2
    refine ⟨(kv.1, e') :: rest', evs0 ++ evsR, ?_, ?_, ?_, ?_, ?_⟩
    · simp only [updateEffectsPhase1]
      rw [show updateEffectEntry now kv
          = .ok ((kv.1, e'), decide (kv.2.duration = 1), evs0) from hentry]
      rw [hrec]
      simp only [Bind.bind, Except.bind, pure, Except.pure]
      by_cases hone : kv.2.duration = 1
      · simp [List.filter_cons, hone]
      · simp [List.filter_cons, hone]
    · simp [hkeys]
    · rw [List.all_cons, Bool.and_eq_true]
      exact ⟨htick, hallR⟩
    · intro nm
      rw [List.filter_append, hevs0 nm, hevsR nm]
      rfl
    · intro nm
      have hlkv : List.lookup nm (kv :: rest)
          = match nm == kv.1 with
            | true => some kv.2
            | false => List.lookup nm rest := by
        rcases kv with ⟨k, v⟩
        rfl
      have hlkv' : List.lookup nm ((kv.1, e') :: rest')
          = match nm == kv.1 with
            | true => some e'
            | false => List.lookup nm rest' := rfl
      rw [hlkv, hlkv']
      cases hbeq : (nm == kv.1) with
      | true => exact ⟨e', rfl, hdur, hrem⟩
      | false => exact hlook nm

/-- Deleting another key does not change a lookup. -/
lemma lookup_filter_ne (hd nm : String) (h : nm ≠ hd) :
    ∀ st : List (String × EffectData),
      (st.filter (fun kv => kv.1 ≠ hd)).lookup nm = st.lookup nm := by
  intro st
  induction st with
  | nil => rfl
  | cons kv rest ih =>
    rcases kv with ⟨k, v⟩
    simp only [List.filter_cons]
    by_cases hk : k = hd
    · have hbeq : (nm == k) = false := beq_eq_false_iff_ne.mpr (by rw [hk]; exact h)
      rw [if_neg (by simp [hk])]
      simp only [List.lookup, hbeq]
      exact ih
    · rw [if_pos (by simpa using hk)]
      cases hbeq : (nm == k) with
      | true => simp [List.lookup, hbeq]
      | false => simp only [List.lookup, hbeq]; exact ih

/-- Deleting a key removes it from lookup. -/
lemma lookup_filter_self (nm : String) :
    ∀ st : List (String × EffectData),
      (st.filter (fun kv => kv.1 ≠ nm)).lookup nm = Option.none := by
  intro st
  induction st with
  | nil => rfl
  | cons kv rest ih =>
    rcases kv with ⟨k, v⟩
    simp only [List.filter_cons]
    by_cases hk : k = nm
    · rw [if_neg (by simp [hk])]
      exact ih
    · rw [if_pos (by simpa using hk)]
      have hbeq : (nm == k) = false := beq_eq_false_iff_ne.mpr (Ne.symm hk)
      simp only [List.lookup, hbeq]
      exact ih

/-- Another effect's remove events never count for this effect. -/
lemma filter_removeEvents_ne (hd nm : String) (h : hd ≠ nm) (v : Value) :
    (executeEffectActions hd "remove" v).filter (isRemoveEventFor nm) = [] := by
  unfold executeEffectActions
  induction effectActionsList v with
  | nil => rfl
  | cons a rest ih =>
    simp only [List.map_cons, List.filter_cons]
    rw [if_neg (by simp [isRemoveEventFor, h])]
    exact ih

/-- An effect's own remove events all count for it. -/
lemma filter_removeEvents_self (nm : String) (v : Value) :
    (executeEffectActions nm "remove" v).filter (isRemoveEventFor nm)
      = executeEffectActions nm "remove" v := by
  unfold executeEffectActions
  induction effectActionsList v with
  | nil => rfl
  | cons a rest ih =>
    simp only [List.map_cons, List.filter_cons]
    rw [if_pos (by simp [isRemoveEventFor])]
    rw [ih]

/-- Removing another effect leaves this effect's entry and trace alone. -/
lemma removeEffect_ne (hd nm : String) (h : nm ≠ hd) (st : List (String × EffectData)) :
    (removeEffect hd st).2.1.lookup nm = st.lookup nm
    ∧ (removeEffect hd st).2.2.filter (isRemoveEventFor nm) = [] := by
  unfold removeEffect
  cases hlk : st.lookup hd with
  | none => exact ⟨rfl, rfl⟩
  | some data =>
    exact ⟨lookup_filter_ne hd nm h st, filter_removeEvents_ne hd nm (Ne.symm h) data.removeActions⟩

/-- Removing this effect deletes its entry and emits exactly its remove
actions (when it was present). -/
lemma removeEffect_self (nm : String) (st : List (String × EffectData)) :
    (removeEffect nm st).2.1.lookup nm = Option.none
    ∧ (removeEffect nm st).2.2.filter (isRemoveEventFor nm)
        = (match st.lookup nm with
           | some e => executeEffectActions nm "remove" e.removeActions
           | Option.none => []) := by
  unfold removeEffect
  cases hlk : st.lookup nm with
  | none => exact ⟨hlk, rfl⟩
  | some data =>
    exact ⟨lookup_filter_self nm st, filter_removeEvents_self nm data.removeActions⟩

/-- Through the whole expired-removal pass: a name not in the list keeps
its entry and gains no remove events; a name in the list ends up absent
with exactly the remove events of its entry at the start of the pass. -/
lemma removeExpired_tracked :
    ∀ (names : List String) (st : List (String × EffectData)) (nm : String),
      (nm ∉ names →
        (removeExpired names st).1.lookup nm = st.lookup nm
        ∧ (removeExpired names st).2.filter (isRemoveEventFor nm) = [])
      ∧ (nm ∈ names →
        (removeExpired names st).1.lookup nm = Option.none
        ∧ (removeExpired names st).2.filter (isRemoveEventFor nm)
            = (match st.lookup nm with
               | some e => executeEffectActions nm "remove" e.removeActions
               | Option.none => [])) := by
  intro names
  induction names with
  | nil =>
    intro st nm
    exact ⟨fun _ => ⟨rfl, rfl⟩, fun h => absurd h (List.not_mem_nil nm)⟩
  | cons hd rest ih =>
    intro st nm
    constructor
    · intro hnot
      have hne : nm ≠ hd := fun h => hnot (h ▸ List.mem_cons_self hd rest)
      have hnrest : nm ∉ rest := fun h => hnot (List.mem_cons_of_mem hd h)
      have h1 := removeEffect_ne hd nm hne st
      have h2 := (ih (removeEffect hd st).2.1 nm).1 hnrest
      refine ⟨h2.1.trans h1.1, ?_⟩
      show ((removeEffect hd st).2.2 ++ (removeExpired rest (removeEffect hd st).2.1).2).filter
          (isRemoveEventFor nm) = []
      rw [List.filter_append, h1.2, h2.2]
      rfl
    · intro hmem
      by_cases heq : nm = hd
      · subst heq
        have h1 := removeEffect_self nm st
        by_cases hrest : nm ∈ rest
        · have h2 := (ih (removeEffect nm st).2.1 nm).2 hrest
          refine ⟨h2.1, ?_⟩
          show ((removeEffect nm st).2.2 ++ (removeExpired rest (removeEffect nm st).2.1).2).filter
              (isRemoveEventFor nm)
            = (match st.lookup nm with
               | some e => executeEffectActions nm "remove" e.removeActions
               | Option.none => [])
          rw [List.filter_append, h1.2, h2.2, h1.1]
          simp
        · have h2 := (ih (removeEffect nm st).2.1 nm).1 hrest
          refine ⟨h2.1.trans h1.1, ?_⟩
          show ((removeEffect nm st).2.2 ++ (removeExpired rest (removeEffect nm st).2.1).2).filter
              (isRemoveEventFor nm)
            = (match st.lookup nm with
               | some e => executeEffectActions nm "remove" e.removeActions
               | Option.none => [])
          rw [List.filter_append, h1.2, h2.2]
          simp
      · have hrest : nm ∈ rest := by
          rcases List.mem_cons.mp hmem with h | h
          · exact absurd h heq
          · exact h
        have h1 := removeEffect_ne hd nm heq st
        have h2 := (ih (removeEffect hd st).2.1 nm).2 hrest
        refine ⟨h2.1, ?_⟩
        show ((removeEffect hd st).2.2 ++ (removeExpired rest (removeEffect hd st).2.1).2).filter
            (isRemoveEventFor nm)
          = (match st.lookup nm with
             | some e => executeEffectActions nm "remove" e.removeActions
             | Option.none => [])
        rw [List.filter_append, h1.2, h2.2, h1.1]
        simp

/-- The removal pass only deletes entries. -/
lemma removeExpired_sublist :
    ∀ (names : List String) (st : List (String × EffectData)),
      (removeExpired names st).1.Sublist st := by
  intro names
  induction names with
  | nil => intro st; exact List.Sublist.refl st
  | cons hd rest ih =>
    intro st
    have h1 : (removeEffect hd st).2.1.Sublist st := by
      unfold removeEffect
      cases st.lookup hd with
      | none => exact List.Sublist.refl st
      | some data => exact List.filter_sublist st
    exact (ih (removeEffect hd st).2.1).trans h1

/-- A successful lookup names a member. -/
lemma lookup_mem :
    ∀ (st : List (String × EffectData)) (nm : String) (e : EffectData),
      st.lookup nm = some e → (nm, e) ∈ st := by
  intro st
  induction st with
  | nil => intro nm e h; cases h
  | cons kv rest ih =>
    intro nm e h
    rcases kv with ⟨k, v⟩
    cases hbeq : (nm == k) with
    | true =>
      simp only [List.lookup, hbeq] at h
      cases h
      have : nm = k := by simpa using hbeq
      rw [this]
      exact List.mem_cons_self _ _
    | false =>
      simp only [List.lookup, hbeq] at h
      exact List.mem_cons_of_mem _ (ih nm e h)

/-- With unique keys, membership determines the lookup. -/
lemma mem_lookup_nodup :
    ∀ (st : List (String × EffectData)) (nm : String) (e : EffectData),
      (st.map Prod.fst).Nodup → (nm, e) ∈ st → st.lookup nm = some e := by
  intro st
  induction st with
  | nil => intro nm e _ h; cases h
  | cons kv rest ih =>
    intro nm e hnd h
    rcases kv with ⟨k, v⟩
    rw [List.map_cons, List.nodup_cons] at hnd
    rcases List.mem_cons.mp h with h | h
    · rcases Prod.mk.inj h with ⟨h1, h2⟩
      subst h1; subst h2
      simp [List.lookup]
    · have hne : nm ≠ k := by
        intro hcontra
        apply hnd.1
        rw [← hcontra]
        exact List.mem_map.mpr ⟨(nm, e), h, rfl⟩
      have hbeq : (nm == k) = false := beq_eq_false_iff_ne.mpr hne
      simp only [List.lookup, hbeq]
      exact ih nm e hnd.2 h

/-- One tick-safe `update_effects` call, from the point of view of one
active effect with unique keys: the call returns normally; an effect whose
duration is not `1` survives with its duration decremented (when positive)
and its remove actions untouched, contributing no remove events; an effect
whose duration is exactly `1` is removed, with exactly its remove actions
in the trace. -/
lemma updateEffects_tracked (now : ℚ) (st : List (String × EffectData)) (name : String)
    (eff : EffectData)
    (hnd : (st.map Prod.fst).Nodup)
    (hall : st.all (fun kv => tickOk kv.2) = true)
    (hl : st.lookup name = some eff) :
    ∃ st₁ tr, updateEffects now st = .ok (st₁, tr)
      ∧ (st₁.map Prod.fst).Nodup
      ∧ st₁.all (fun kv => tickOk kv.2) = true
      ∧ (eff.duration ≠ 1 →
          ∃ eff', st₁.lookup name = some eff'
            ∧ eff'.duration = (if 0 < eff.duration then eff.duration - 1 else eff.duration)
            ∧ eff'.removeActions = eff.removeActions
            ∧ tr.filter (isRemoveEventFor name) = [])
      ∧ (eff.duration = 1 →
          st₁.lookup name = Option.none
          ∧ tr.filter (isRemoveEventFor name)
              = executeEffectActions name "remove" eff.removeActions) := by
  obtain ⟨st', evs, heq1, hkeys, hall', hevs, hlook⟩ := updateEffectsPhase1_props now st hall
  have hlook' := hlook name
  rw [hl] at hlook'
  obtain ⟨eff', hleff', hdur', hrem'⟩ := hlook'
  set expired := (st.filter (fun kv => decide (kv.2.duration = 1))).map Prod.fst with hexp
  have hsub := removeExpired_sublist expired st'
  have hupd : updateEffects now st
      = .ok ((removeExpired expired st').1, evs ++ (removeExpired expired st').2) := by
    unfold updateEffects
    rw [heq1]
    rfl
  refine ⟨(removeExpired expired st').1, evs ++ (removeExpired expired st').2, hupd, ?_, ?_, ?_, ?_⟩
  · have : ((removeExpired expired st').1.map Prod.fst).Sublist (st'.map Prod.fst) :=
      hsub.map Prod.fst
    rw [hkeys] at this
    exact this.nodup hnd
  · rw [List.all_eq_true] at hall' ⊢
    intro kv hkv
    exact hall' kv (hsub.subset hkv)
  · intro hne1
    have hnotin : name ∉ expired := by
      rw [hexp]
      intro hmem
      rcases List.mem_map.mp hmem with ⟨kv, hkvmem, hfst⟩
      rcases List.mem_filter.mp hkvmem with ⟨hkvin, hkvdur⟩
      have hlk := mem_lookup_nodup st kv.1 kv.2 hnd hkvin
      rw [hfst, hl] at hlk
      have heff : eff = kv.2 := Option.some.inj hlk
      apply hne1
      rw [heff]
      simpa using hkvdur
    have h2 := (removeExpired_tracked expired st' name).1 hnotin
    refine ⟨eff', h2.1.trans hleff', hdur', hrem', ?_⟩
    rw [List.filter_append, hevs name, h2.2]
    rfl
  · intro hone
    have hin : name ∈ expired := by
      rw [hexp]
      refine List.mem_map.mpr ⟨(name, eff), ?_, rfl⟩
      refine List.mem_filter.mpr ⟨lookup_mem st name eff hl, by simpa using hone⟩
    have h2 := (removeExpired_tracked expired st' name).2 hin
    refine ⟨h2.1, ?_⟩
    rw [List.filter_append, hevs name, h2.2, hleff']
    simp only [List.nil_append]
    show executeEffectActions name "remove" eff'.removeActions
        = executeEffectActions name "remove" eff.removeActions
    rw [hrem']

/-- The iterated-update induction behind C2, generalized over the starting
call index. -/
lemma iterUpdateEffects_expiry_from (nows : ℕ → ℚ) :
    ∀ (d : ℕ), 0 < d →
    ∀ (i : ℕ) (st : List (String × EffectData)) (name : String) (eff : EffectData),
      (st.map Prod.fst).Nodup →
      st.all (fun kv => tickOk kv.2) = true →
      st.lookup name = some eff →
      eff.duration = (d : ℤ) →
      ∃ stF tr,
        iterUpdateEffectsFrom nows i d st = .ok (stF, tr)
        ∧ stF.lookup name = Option.none
        ∧ tr.filter (isRemoveEventFor name)
            = executeEffectActions name "remove" eff.removeActions
        ∧ (∀ k, k < d → ∃ stK trK,
            iterUpdateEffectsFrom nows i k st = .ok (stK, trK)
            ∧ (stK.lookup name).isSome
            ∧ trK.filter (isRemoveEventFor name) = []) := by
  intro d
  induction d with
  | zero => intro h; omega
  | succ n ih =>
    intro _ i st name eff hnd hall hl hdur
    by_cases hn : n = 0
    · subst hn
      have hone : eff.duration = 1 := by rw [hdur]; norm_num
      obtain ⟨st₁, tr₁, hupd, hnd₁, hall₁, _, hcase1⟩ :=
        updateEffects_tracked (nows i) st name eff hnd hall hl
      obtain ⟨habsent, hfilter⟩ := hcase1 hone
      refine ⟨st₁, tr₁ ++ [], ?_, habsent, ?_, ?_⟩
      · simp only [iterUpdateEffectsFrom]
        rw [hupd]
        rfl
      · rw [List.filter_append, hfilter]
        simp
      · intro k hk
        have hk0 : k = 0 := by omega
        subst hk0
        exact ⟨st, [], rfl, by rw [hl]; rfl, rfl⟩
    · have hne1 : eff.duration ≠ 1 := by
        rw [hdur]
        have : (((n + 1 : ℕ)) : ℤ) ≠ 1 := by push_cast; omega
        exact this
      obtain ⟨st₁, tr₁, hupd, hnd₁, hall₁, hcaseNe, _⟩ :=
        updateEffects_tracked (nows i) st name eff hnd hall hl
      obtain ⟨eff', hleff', hdur', hrem', hfilter₁⟩ := hcaseNe hne1
      have hpos : (0 : ℤ) < eff.duration := by rw [hdur]; push_cast; omega
      have hdur'' : eff'.duration = (n : ℤ) := by
        rw [hdur', if_pos hpos, hdur]
        push_cast
        omega
      obtain ⟨stF, trF, hiter, habsent, hfilterF, hpre⟩ :=
        ih (by omega) (i + 1) st₁ name eff' hnd₁ hall₁ hleff' hdur''
      refine ⟨stF, tr₁ ++ trF, ?_, habsent, ?_, ?_⟩
      · simp only [iterUpdateEffectsFrom]
        rw [hupd]
        simp only [Bind.bind, Except.bind]
        rw [hiter]
        rfl
      · rw [List.filter_append, hfilter₁, hfilterF, hrem']
        rfl
      · intro k hk
        cases k with
        | zero => exact ⟨st, [], rfl, by rw [hl]; rfl, rfl⟩
        | succ j =>
          obtain ⟨stK, trK, hiterK, hsomeK, hfilterK⟩ := hpre j (by omega)
          refine ⟨stK, tr₁ ++ trK, ?_, hsomeK, ?_⟩
          · simp only [iterUpdateEffectsFrom]
            rw [hupd]
            simp only [Bind.bind, Except.bind]
            rw [hiterK]
            rfl
          · rw [List.filter_append, hfilter₁, hfilterK]
            rfl

/-- C2: for every active effect whose duration `d` is an integer greater
than `0` (in a store with unique effect names whose tick configurations
cannot raise), after exactly `d` calls to `update_effects()` the effect is
absent from the active-effect map and its remove actions appear exactly
once in the trace, contributed by the `d`-th call — before that call
(`k < d`) the effect is still active and no remove action of it has run. -/
theorem C2_effect_expiry (nows : ℕ → ℚ) (st : List (String × EffectData))
    (name : String) (eff : EffectData) (d : ℕ)
    (hnd : (st.map Prod.fst).Nodup)
    (hall : st.all (fun kv => tickOk kv.2) = true)
    (hl : st.lookup name = some eff)
    (hdur : eff.duration = (d : ℤ))
    (hpos : 0 < d) :
    ∃ stF tr,
      iterUpdateEffects nows d st = .ok (stF, tr)
      ∧ stF.lookup name = Option.none
      ∧ tr.filter (isRemoveEventFor name)
          = executeEffectActions name "remove" eff.removeActions
      ∧ (∀ k, k < d → ∃ stK trK,
          iterUpdateEffects nows k st = .ok (stK, trK)
          ∧ (stK.lookup name).isSome
          ∧ trK.filter (isRemoveEventFor name) = []) :=
  iterUpdateEffects_expiry_from nows d hpos 0 st name eff hnd hall hl hdur

/-- Witness for C2: a `poison` effect with duration `2` and one remove
action expires after exactly two updates, running its remove action once. -/
theorem C2_effect_expiry_witness :
    ∃ stF tr,
      iterUpdateEffects (fun _ => 0) 2
          [("poison", { duration := 2, removeActions := Value.list [Value.str "r1"] })]
        = .ok (stF, tr)
      ∧ stF.lookup "poison" = Option.none
      ∧ tr.filter (isRemoveEventFor "poison")
          = executeEffectActions "poison" "remove"
              (EffectData.removeActions
                { duration := 2, removeActions := Value.list [Value.str "r1"] })
      ∧ (∀ k, k < 2 → ∃ stK trK,
          iterUpdateEffects (fun _ => 0) k
              [("poison", { duration := 2, removeActions := Value.list [Value.str "r1"] })]
            = .ok (stK, trK)
          ∧ (stK.lookup "poison").isSome
          ∧ trK.filter (isRemoveEventFor "poison") = []) :=
  C2_effect_expiry (fun _ => 0)
    [("poison", { duration := 2, removeActions := Value.list [Value.str "r1"] })]
    "poison" { duration := 2, removeActions := Value.list [Value.str "r1"] } 2
    (by with_unfolding_all decide) (by with_unfolding_all decide)
    (by with_unfolding_all decide) (by with_unfolding_all decide)
    (by with_unfolding_all decide)

/-- Witness for C1 (amended): the unsupported condition `"true"` (it is
nonempty and matches no branch) resolves to `True` via the fail-open
fallback against an arbitrary store. -/
theorem C1_evaluation_error_handling_amended_witness :
    evalCondC (0 + 1) {} "true".data = .ok true :=
  C1_evaluation_error_handling_amended.2.2.1 0 {} "true".data
    (by decide) (by with_unfolding_all decide) (by with_unfolding_all decide)
    (by with_unfolding_all decide) (by with_unfolding_all decide)
    (by with_unfolding_all decide) (by with_unfolding_all decide)
    (by with_unfolding_all decide) (by with_unfolding_all decide)
    (by with_unfolding_all decide) (by decide) (by with_unfolding_all decide)
    (by with_unfolding_all decide)

end ScriptRunner
